import Mathlib

/-!
# Corner Grocer Tracker: a shallow embedding of `src/main.cpp`

The C++ program reads a purchase log line by line, counts each trimmed line in a
`std::map<std::string,int>`, writes the counts to a backup file and then serves an
interactive menu (lookup, full listing, histogram).

Modelling decisions:

* a `std::string` is a list of bytes (`Str`); `char` comparisons are the unsigned byte
  comparisons of `std::char_traits<char>`;
* the `std::map` is the list of its entries in iteration order, i.e. strictly ascending keys
  (`WF`); `counts[item]++` is `increment`;
* an `int` is an integer between `INT_MIN` and `INT_MAX` (32 bits). The one `int` operation of
  the program that can overflow is `counts[item]++`; signed overflow is undefined behaviour
  in C++, and `increment` gives it the two's complement wrap-around (`wrapInt`) of the usual
  implementations;
* a text stream is the list of the lines that successive `std::getline` calls return; a
  function that reads `std::cin` and writes `std::cout` takes the remaining input lines and
  returns the text written together with the input lines left over;
* `std::sort` is a parameter (`StdSort`): any implementation that meets the contract of the
  C++ standard, since the order of equivalent elements is unspecified;
* the `do ... while` loop of `run` need not end (it spins at the end of the input), so one pass
  of its body is the function `iteration` and the loop is `runLoop`, bounded by a number of
  passes; the opening of the two files is an input of `readDailyLog` and `writeBackupFile`.
-/

namespace GroceryTracker

/-! ## Strings -/

/-- One `char` of a `std::string`, as an unsigned byte. -/
abbrev Byte := Fin 256

/-- A `std::string`: its sequence of bytes. -/
abbrev Str := List Byte

/-- The bytes of an ASCII string literal of the source. -/
def ascii (s : String) : Str := s.toList.map (fun c => Fin.ofNat c.toNat)

/-- The UTF-8 encoding of the right single quotation mark (U+2019) that the source uses in
some of its messages. -/
def rsquo : Str := [0xE2, 0x80, 0x99]

/-- `operator<` on `std::string`: lexicographic comparison of the bytes, a proper prefix being
smaller. This is the key order of `std::map<std::string,int>`. -/
def strLt : Str → Str → Bool
  | [], [] => false
  | [], _ :: _ => true
  | _ :: _, [] => false
  | a :: as, b :: bs => if a < b then true else if b < a then false else strLt as bs

/-- `s.find_first_not_of(chars)`: the position of the first byte of `s` that is not one of
`chars`, `none` standing for `std::string::npos`. -/
def find_first_not_of (s chars : Str) : Option Nat :=
  match s with
  | [] => none
  | c :: cs => if chars.contains c then (find_first_not_of cs chars).map (· + 1) else some 0

/-- `s.find_last_not_of(chars)`: the position of the last byte of `s` that is not one of
`chars`, `none` standing for `std::string::npos`. -/
def find_last_not_of (s chars : Str) : Option Nat :=
  match s with
  | [] => none
  | c :: cs =>
    match find_last_not_of cs chars with
    | some i => some (i + 1)
    | none => if chars.contains c then none else some 0

/-- `s.substr(pos, len)` for `pos ≤ s.size()`. -/
def substr (s : Str) (pos len : Nat) : Str := (s.drop pos).take len

/-- The set `" \t\n\r"` that `trim` strips. -/
def trimSet : Str := [32, 9, 10, 13]

/-- `trim` (main.cpp:31-36). The branch for `end == npos` cannot be taken once `start` was
found; it is given the value of the unsigned computation `npos - start + 1`. -/
def trim (s : Str) : Str :=
  match find_first_not_of s trimSet with
  | none => []
  | some start =>
    match find_last_not_of s trimSet with
    | some e => substr s start (e - start + 1)
    | none => substr s start ((2 ^ 64 - start) % 2 ^ 64)

/-- `std::tolower` on one byte in the "C" locale (the program never calls `setlocale`):
`'A'..'Z'` go to `'a'..'z'`, every other byte is unchanged. -/
def tolower (c : Byte) : Byte := if 65 ≤ c.val ∧ c.val ≤ 90 then c + 32 else c

/-- `toLower` (main.cpp:39-44). -/
def toLower (s : Str) : Str := s.map tolower

/-- The decimal digits of a natural number. -/
def decimalNat (n : Nat) : Str := (Nat.toDigits 10 n).map (fun c => Fin.ofNat c.toNat)

/-- `operator<<` for an `int` with the default flags: decimal digits, a leading `-` for a
negative value. -/
def decimal (n : Int) : Str :=
  if n < 0 then 45 :: decimalNat n.natAbs else decimalNat n.toNat

/-- `std::left << std::setw(w) << s`: `s` followed by spaces up to width `w`; a longer `s` is
written in full. -/
def padRight (w : Nat) (s : Str) : Str := s ++ List.replicate (w - s.length) 32

/-- `std::right << std::setw(w) << s`: spaces up to width `w`, then `s`. -/
def padLeft (w : Nat) (s : Str) : Str := List.replicate (w - s.length) 32 ++ s

/-! ## Reading an `int` from a line -/

/-- `std::isspace` in the "C" locale. -/
def isspace (c : Byte) : Bool := c = 32 || (9 ≤ c.val && c.val ≤ 13)

/-- `std::isdigit`. -/
def isdigit (c : Byte) : Bool := 48 ≤ c.val && c.val ≤ 57

/-- The value of a sequence of decimal digits. -/
def digitsValue (ds : Str) : Nat := ds.foldl (fun acc d => 10 * acc + (d.val - 48)) 0

/-- Largest `int`. -/
def INT_MAX : Int := 2147483647

/-- Smallest `int`. -/
def INT_MIN : Int := -2147483648

/-- `std::stringstream(line) >> value` for an `int` that holds `old`, as the C++ standard
(since C++11) defines it: the result is whether the extraction succeeded and the value of the
variable afterwards.

* Leading white space is skipped; if nothing is left the stream fails before any conversion
  and the variable keeps its old value.
* Otherwise an optional sign and the longest run of digits are read. Without a digit the
  extraction fails and stores `0`; a value that does not fit an `int` fails and stores the
  nearest bound. What follows the digits is left unread. -/
def extractInt (line : Str) (old : Int) : Bool × Int :=
  match line.dropWhile isspace with
  | [] => (false, old)
  | c :: cs =>
    let neg := c = 45
    let body := if c = 45 ∨ c = 43 then cs else c :: cs
    let ds := body.takeWhile isdigit
    if ds = [] then (false, 0)
    else
      let v : Int := if neg then - (digitsValue ds : Int) else (digitsValue ds : Int)
      if v > INT_MAX then (false, INT_MAX)
      else if v < INT_MIN then (false, INT_MIN)
      else (true, v)

/-- `std::getline(std::cin, line)`: the next input line; at the end of the input the call
fails and leaves `line` empty. -/
def getline : List Str → Str × List Str
  | [] => ([], [])
  | l :: ls => (l, ls)

/-! ## The count mapping -/

/-- One entry of `std::map<std::string,int>`. -/
abbrev Entry := Str × Int

/-- The member `counts`: the entries of the map in iteration order. -/
abbrev CountMap := List Entry

/-- The representation invariant of `std::map`: keys strictly ascending. -/
def WF (m : CountMap) : Prop := m.Pairwise (fun a b => strLt a.1 b.1 = true)

instance (m : CountMap) : Decidable (WF m) := by unfold WF; infer_instance

/-- The value of a 32-bit `int` after an arithmetic result `x`: `x` itself when it lies
between `INT_MIN` and `INT_MAX`, and otherwise the value congruent to it modulo `2 ^ 32` in
that range (two's complement wrap-around; the C++ standard leaves the overflow undefined). -/
def wrapInt (x : Int) : Int := (x + 2147483648) % 4294967296 - 2147483648

/-- `counts[item]++` (main.cpp:93) on `std::map<std::string,int>` (main.cpp:80):
`operator[]` finds the entry whose key is equivalent to `item` under the key order, inserting
one with the value-initialised count `0` at its place in the order if there is none, and the
`int` count is incremented. -/
def increment : CountMap → Str → CountMap
  | [], item => [(item, wrapInt (0 + 1))]
  | (k, v) :: rest, item =>
    if strLt item k then (item, wrapInt (0 + 1)) :: (k, v) :: rest
    else if strLt k item then (k, v) :: increment rest item
    else (k, wrapInt (v + 1)) :: rest

/-- The `while (std::getline(in, line))` loop of `readDailyLog` (main.cpp:90-94). -/
def readLoop : List Str → CountMap → CountMap
  | [], counts => counts
  | line :: rest, counts =>
    let item := trim line
    if item.isEmpty then readLoop rest counts
    else readLoop rest (increment counts item)

/-- `EXIT_FAILURE` of `<cstdlib>`. -/
def EXIT_FAILURE : Nat := 1

/-- The program ended by `std::exit`: what it wrote to `std::cerr` and its exit status. -/
structure Fatal where
  stderr : Str
  status : Nat
deriving DecidableEq

/-- `readDailyLog` (main.cpp:83-95). `file` is `none` when the input file cannot be opened and
otherwise holds its lines; `counts` is the member before the call. -/
def readDailyLog (inputFileName : Str) (file : Option (List Str)) (counts : CountMap) :
    Except Fatal CountMap :=
  match file with
  | none =>
    .error ⟨ascii "Error: could not open " ++ inputFileName ++ ascii ".\n", EXIT_FAILURE⟩
  | some lines => .ok (readLoop lines counts)

/-- The text one entry contributes to the backup file (main.cpp:105). -/
def backupLine (p : Entry) : Str := p.1 ++ [32] ++ decimal p.2 ++ [10]

/-- `writeBackupFile` (main.cpp:98-107). `opens` tells whether `frequency.dat` can be opened
for writing and `old` is its content before the call. The result is the content of the file
afterwards and the text written to `std::cerr`. Opening an `std::ofstream` truncates the
file. -/
def writeBackupFile (opens : Bool) (old : Str) (counts : CountMap) : Str × Str :=
  if !opens then (old, ascii "Warning: could not write backup file.\n")
  else (counts.flatMap backupLine, [])

/-! ## Query and report operations -/

/-- `printFound` (main.cpp:198-201): the text written to `std::cout`. -/
def printFound (item : Str) (count : Int) : Str :=
  ascii "Great news! '" ++ item ++ ascii "' was purchased " ++ decimal count
    ++ (if count = 1 then ascii " time.\n" else ascii " times.\n")

/-- The prompt of `lookupSingleItem`. -/
def lookupPrompt : Str := ascii "Enter item name (e.g. Apples): "

/-- The vector `suggestions` of `lookupSingleItem` (main.cpp:137-142):
`toLower(p.first).rfind(lowerInput, 0) == 0` holds when `toLower(p.first)` starts with
`lowerInput`. -/
def suggestions (counts : CountMap) (lowerInput : Str) : List Str :=
  (counts.filter (fun p => lowerInput.isPrefixOf (toLower p.1))).map Prod.fst

/-- The text written for a non-empty vector of suggestions (main.cpp:144-145). -/
def suggestionText (input : Str) (sugg : List Str) : Str :=
  ascii "I couldn" ++ rsquo ++ ascii "t find \"" ++ input ++ ascii "\" exactly. Did you mean:\n"
    ++ sugg.flatMap (fun s => ascii "  - " ++ s ++ ascii "\n")

/-- The text written when nothing matches (main.cpp:147). -/
def noMatchText (input : Str) : Str := ascii "No items match \"" ++ input ++ ascii "\".\n"

/-- `lookupSingleItem` (main.cpp:121-149). -/
def lookupSingleItem (counts : CountMap) (stdin : List Str) : Str × List Str :=
  let (line, rest) := getline stdin
  let input := trim line
  let lowerInput := toLower input
  match counts.find? (fun p => toLower p.1 == lowerInput) with
  | some p => (lookupPrompt ++ printFound p.1 p.2, rest)
  | none =>
    let sugg := suggestions counts lowerInput
    if !sugg.isEmpty then (lookupPrompt ++ suggestionText input sugg, rest)
    else (lookupPrompt ++ noMatchText input, rest)

/-- A strict weak ordering, the requirement of `std::sort` on its comparator. -/
def StrictWeak (comp : Entry → Entry → Bool) : Prop :=
  (∀ a, comp a a = false) ∧
  (∀ a b c, comp a b = true → comp b c = true → comp a c = true) ∧
  (∀ a b c, comp a b = false → comp b a = false → comp b c = false → comp c b = false →
    comp a c = false ∧ comp c a = false)

/-- An implementation of `std::sort` on a vector of entries: for a comparator that is a strict
weak ordering the result is a rearrangement of the input in which no element is ordered
before one that precedes it. Nothing else is known of it; in particular the order of
equivalent elements is unspecified. -/
structure StdSort where
  /-- The vector after the call. -/
  sort : (Entry → Entry → Bool) → List Entry → List Entry
  /-- The result is a permutation of the input. -/
  perm : ∀ comp l, StrictWeak comp → (sort comp l).Perm l
  /-- The result is sorted with respect to the comparator. -/
  sorted : ∀ comp l, StrictWeak comp → (sort comp l).Pairwise (fun a b => comp b a = false)

/-- The comparator of the sort by name (main.cpp:164-166). -/
def byName (a b : Entry) : Bool := strLt a.1 b.1

/-- The comparator of the sort by frequency (main.cpp:168-170). -/
def byFrequency (a b : Entry) : Bool := decide (a.2 > b.2)

/-- The value of `sortChoice` after main.cpp:155-160 for the line read. -/
def sortChoiceOf (line : Str) : Int :=
  let r := extractInt line 1
  if !r.1 || r.2 < 1 || r.2 > 2 then 1 else r.2

/-- The vector `entries` of `displayAllCounts` after sorting (main.cpp:162-171). -/
def sortedEntries (S : StdSort) (counts : CountMap) (sortChoice : Int) : List Entry :=
  if sortChoice = 1 then S.sort byName counts else S.sort byFrequency counts

/-- One row of the table (main.cpp:176-177). -/
def tableRow (p : Entry) : Str := padRight 18 p.1 ++ padLeft 5 (decimal p.2) ++ ascii "\n"

/-- The prompt of `displayAllCounts`. -/
def sortPrompt : Str := ascii "Sort by: 1) Name  2) Frequency (highest first)\nYour choice: "

/-- The header of the table. -/
def tableHeader : Str := ascii "\nItem               Count\n--------------------------\n"

/-- `displayAllCounts` (main.cpp:152-179). -/
def displayAllCounts (S : StdSort) (counts : CountMap) (stdin : List Str) : Str × List Str :=
  let (line, rest) := getline stdin
  let entries := sortedEntries S counts (sortChoiceOf line)
  (sortPrompt ++ tableHeader ++ entries.flatMap tableRow, rest)

/-- The value of `barChar` after main.cpp:184-187. -/
def barCharOf (line : Str) : Byte :=
  match line with
  | [] => 42
  | c :: _ => c

/-- One line of the histogram (main.cpp:191-193); the `for` loop writes nothing for a count
that is not positive. -/
def histogramLine (barChar : Byte) (p : Entry) : Str :=
  padRight 12 p.1 ++ [32] ++ List.replicate p.2.toNat barChar ++ ascii "\n"

/-- The prompt of `displayHistogram`. -/
def histogramPrompt : Str := ascii "Pick a character for the bars (press Enter for '*'): "

/-- The heading of the histogram. -/
def histogramHeader : Str := ascii "\nHere" ++ rsquo ++ ascii "s your histogram!\n"

/-- `displayHistogram` (main.cpp:182-195). -/
def displayHistogram (counts : CountMap) (stdin : List Str) : Str × List Str :=
  let (line, rest) := getline stdin
  let barChar := barCharOf line
  (histogramPrompt ++ histogramHeader ++ counts.flatMap (histogramLine barChar), rest)

/-! ## The menu loop and the program -/

/-- The text of `showMenu` (main.cpp:110-117). -/
def menuText : Str :=
  ascii "\nWhat would you like to do?\n" ++ ascii "1) Find purchases for one item\n"
    ++ ascii "2) See the full purchase list\n" ++ ascii "3) View a purchase histogram\n"
    ++ ascii "4) Exit the program\n" ++ ascii "Enter a number (1-4): "

/-- The farewell of choice 4 (main.cpp:70). -/
def farewellText : Str := ascii "Thanks for hanging out! Goodbye!\n"

/-- The message of the `default` case (main.cpp:71). -/
def invalidChoiceText : Str :=
  ascii "Hmm, that" ++ rsquo ++ ascii "s not 1-4. Give it another shot.\n"

/-- The prompt of `pause`. -/
def pausePrompt : Str := ascii "\nPress Enter to return to the menu..."

/-- `pause` (main.cpp:204-207): `std::cin.ignore(max, '\n')` discards the input up to and
including the next line end, that is one line, or nothing at the end of the input. -/
def pause (stdin : List Str) : Str × List Str := (pausePrompt, stdin.drop 1)

/-- What `run` works on: the member `counts`, the local variable `choice`, the input lines not
yet read from `std::cin` and the text written to `std::cout` so far. -/
structure RunState where
  counts : CountMap
  choice : Int
  stdin : List Str
  stdout : Str
deriving DecidableEq

/-- The `switch` of `run` (main.cpp:66-72). The three operations are `const` member functions:
they return the text written and the input left and have no access to change `counts`. -/
def dispatch (S : StdSort) (counts : CountMap) (choice : Int) (stdin : List Str) :
    Str × List Str :=
  if choice = 1 then lookupSingleItem counts stdin
  else if choice = 2 then displayAllCounts S counts stdin
  else if choice = 3 then displayHistogram counts stdin
  else if choice = 4 then (farewellText, stdin)
  else (invalidChoiceText, stdin)

/-- One pass through the body of the `do ... while` loop of `run` (main.cpp:60-73). The
variable `choice` is declared outside the loop, so `ss >> choice` starts from the value the
previous pass left. -/
def iteration (S : StdSort) (s : RunState) : RunState :=
  let (line, rest) := getline s.stdin
  let choice := (extractInt line s.choice).2
  let (out, rest1) := dispatch S s.counts choice rest
  if choice ≠ 4 then
    let (prompt, rest2) := pause rest1
    { counts := s.counts, choice := choice, stdin := rest2,
      stdout := s.stdout ++ menuText ++ out ++ prompt }
  else
    { counts := s.counts, choice := choice, stdin := rest1,
      stdout := s.stdout ++ menuText ++ out }

/-- The `do ... while (choice != 4)` loop with a bound on the number of passes: `none` when
the loop is still running after `fuel` passes. -/
def runLoop (S : StdSort) : Nat → RunState → Option RunState
  | 0, _ => none
  | fuel + 1, s =>
    let s1 := iteration S s
    if s1.choice ≠ 4 then runLoop S fuel s1 else some s1

/-- The state in which `run` enters its loop (main.cpp:58). -/
def initialState (counts : CountMap) (stdin : List Str) : RunState :=
  { counts := counts, choice := 0, stdin := stdin, stdout := [] }

/-- `run` (main.cpp:57-75). -/
def run (S : StdSort) (fuel : Nat) (counts : CountMap) (stdin : List Str) : Option RunState :=
  runLoop S fuel (initialState counts stdin)

/-- The tracker after its constructor: the loaded mapping, the content of the backup file and
the text written to `std::cerr`. -/
structure Constructed where
  counts : CountMap
  backup : Str
  stderr : Str
deriving DecidableEq

/-- The constructor of `GroceryTracker` (main.cpp:49-54): `readDailyLog`, then
`writeBackupFile`. `std::exit` in `readDailyLog` ends the program before the backup file is
touched. -/
def construct (inputFileName : Str) (file : Option (List Str)) (backupOpens : Bool)
    (oldBackup : Str) : Except Fatal Constructed :=
  match readDailyLog inputFileName file [] with
  | .error f => .error f
  | .ok counts =>
    let (backup, err) := writeBackupFile backupOpens oldBackup counts
    .ok { counts := counts, backup := backup, stderr := err }

/-- How the process ended: exit status, the text on `std::cout` and `std::cerr`, the content of
the backup file and the input lines left unread. -/
structure Exit where
  status : Nat
  stdout : Str
  stderr : Str
  backup : Str
  stdin : List Str
deriving DecidableEq

/-- The name of the input file (main.cpp:211). -/
def inputFile : Str := ascii "CS210_Project_Three_Input_File.txt"

/-- `main` (main.cpp:210-214); `none` when the menu loop is still running after `fuel`
passes. -/
def main (S : StdSort) (fuel : Nat) (file : Option (List Str)) (backupOpens : Bool)
    (oldBackup : Str) (stdin : List Str) : Option Exit :=
  match construct inputFile file backupOpens oldBackup with
  | .error f =>
    some { status := f.status, stdout := [], stderr := f.stderr, backup := oldBackup,
           stdin := stdin }
  | .ok t =>
    match run S fuel t.counts stdin with
    | none => none
    | some s =>
      some { status := 0, stdout := s.stdout, stderr := t.stderr, backup := t.backup,
             stdin := s.stdin }

/-! ## A reference implementation of `std::sort` -/

/-- Insertion of one element into a sorted vector, before the first element that the
comparator orders after it. -/
def orderedInsert (comp : Entry → Entry → Bool) (x : Entry) : List Entry → List Entry
  | [] => [x]
  | y :: ys => if comp x y then x :: y :: ys else y :: orderedInsert comp x ys

/-- Insertion sort. -/
def insertionSort (comp : Entry → Entry → Bool) : List Entry → List Entry
  | [] => []
  | x :: xs => orderedInsert comp x (insertionSort comp xs)

/-! ## Auxiliary notions for the statements and proofs -/

/-- The count stored for a key, `0` when the key is absent. -/
def getCount : CountMap → Str → Int
  | [], _ => 0
  | (k, v) :: rest, key => if k = key then v else getCount rest key

/-- Every stored count is a value of type `int`. -/
def InRange (m : CountMap) : Prop := ∀ p ∈ m, INT_MIN ≤ p.2 ∧ p.2 ≤ INT_MAX

/-- Membership in the set that `trim` strips. -/
def isTrimChar (c : Byte) : Bool := trimSet.contains c

/-- What the specification says of `trim`: the longest prefix and the longest suffix of
characters of the set are removed. -/
def trimSpec (s : Str) : Str := ((s.dropWhile isTrimChar).reverse.dropWhile isTrimChar).reverse

/-- The text up to the last character that is not in the set. -/
def rstrip (s : Str) : Str :=
  match find_last_not_of s trimSet with
  | some e => s.take (e + 1)
  | none => []

/-- A menu line that is not numeric (something other than white space that does not start
with a number, or a number too large for an `int`) or is a number outside 1 to 4. -/
def InvalidMenuLine (line : Str) : Prop :=
  line.dropWhile isspace ≠ [] ∧
    ((extractInt line 0).1 = false ∨ (extractInt line 0).2 < 1 ∨ 4 < (extractInt line 0).2)

instance (line : Str) : Decidable (InvalidMenuLine line) := by
  unfold InvalidMenuLine; infer_instance

/-! ## The definitions on concrete inputs -/

theorem trim_examples :
    trim (ascii "  Apples \t\r") = ascii "Apples" ∧ trim (ascii " \t ") = [] ∧
    trim (ascii "a b") = ascii "a b" ∧ trim [] = [] := by decide

theorem toLower_example : toLower (ascii "APples1") = ascii "apples1" := by decide

theorem extractInt_examples :
    extractInt (ascii " 2abc") 7 = (true, 2) ∧ extractInt (ascii "  ") 7 = (false, 7) ∧
    extractInt [] 7 = (false, 7) ∧ extractInt (ascii "x") 7 = (false, 0) ∧
    extractInt (ascii "-12") 7 = (true, -12) ∧ extractInt (ascii "+3") 7 = (true, 3) ∧
    extractInt (ascii "99999999999") 7 = (false, 2147483647) := by decide

theorem readLoop_example :
    readLoop [ascii "b", ascii " a", ascii "", ascii "b "] []
      = [(ascii "a", 1), (ascii "b", 2)] := by decide

theorem decimal_examples :
    decimal (-120) = ascii "-120" ∧ decimal 0 = ascii "0" ∧ decimal 37 = ascii "37" := by
  decide

/-! ## The key order is a strict total order -/

theorem strLt_irrefl (a : Str) : strLt a a = false := by
  induction a with
  | nil => rfl
  | cons x xs ih => simp [strLt, ih]

theorem strLt_trans : ∀ (a b c : Str), strLt a b = true → strLt b c = true → strLt a c = true
  | [], [], _, h, _ => by simp [strLt] at h
  | [], _ :: _, [], _, h => by simp [strLt] at h
  | [], _ :: _, _ :: _, _, _ => by simp [strLt]
  | _ :: _, [], _, h, _ => by simp [strLt] at h
  | _ :: _, _ :: _, [], _, h => by simp [strLt] at h
  | x :: xs, y :: ys, z :: zs, h1, h2 => by
    simp only [strLt] at h1 h2 ⊢
    by_cases hxy : x < y
    · by_cases hyz : y < z
      · simp [lt_trans hxy hyz]
      · simp only [hyz, if_false] at h2
        by_cases hzy : z < y
        · simp [hzy] at h2
        · have : y = z := le_antisymm (not_lt.mp hzy) (not_lt.mp hyz)
          subst this
          simp [hxy]
    · simp only [hxy, if_false] at h1
      by_cases hyx : y < x
      · simp [hyx] at h1
      · have hxy' : x = y := le_antisymm (not_lt.mp hyx) (not_lt.mp hxy)
        subst hxy'
        simp only [hyx, if_false] at h1
        by_cases hxz : x < z
        · simp [hxz]
        · simp only [hxz, if_false] at h2 ⊢
          by_cases hzx : z < x
          · simp [hzx] at h2
          · simp only [hzx, if_false] at h2 ⊢
            exact strLt_trans xs ys zs h1 h2

theorem strLt_asymm (a b : Str) (h : strLt a b = true) : strLt b a = false := by
  cases hba : strLt b a with
  | false => rfl
  | true =>
    have := strLt_trans a b a h hba
    simp [strLt_irrefl] at this

theorem strLt_connex : ∀ (a b : Str), strLt a b = false → strLt b a = false → a = b
  | [], [], _, _ => rfl
  | [], _ :: _, h, _ => by simp [strLt] at h
  | _ :: _, [], _, h => by simp [strLt] at h
  | x :: xs, y :: ys, h1, h2 => by
    simp only [strLt] at h1 h2
    by_cases hxy : x < y
    · simp [hxy] at h1
    · by_cases hyx : y < x
      · simp [hyx] at h2
      · simp only [hxy, hyx, if_false] at h1 h2
        have : x = y := le_antisymm (not_lt.mp hyx) (not_lt.mp hxy)
        rw [this, strLt_connex xs ys h1 h2]

theorem strLt_ne (a b : Str) (h : strLt a b = true) : a ≠ b := by
  intro e
  subst e
  simp [strLt_irrefl] at h

/-! ## Facts about `counts[item]++` -/

theorem wrapInt_of_inRange (x : Int) (h1 : INT_MIN ≤ x) (h2 : x ≤ INT_MAX) : wrapInt x = x := by
  simp only [wrapInt, INT_MIN, INT_MAX] at *
  omega

theorem wrapInt_inRange (x : Int) : INT_MIN ≤ wrapInt x ∧ wrapInt x ≤ INT_MAX := by
  simp only [wrapInt, INT_MIN, INT_MAX]
  omega

theorem wrapInt_wrapInt_add (a b : Int) : wrapInt (wrapInt a + b) = wrapInt (a + b) := by
  simp only [wrapInt]
  omega

theorem getCount_eq_zero_of_lt (m : CountMap) (key : Str)
    (h : ∀ p ∈ m, strLt key p.1 = true) : getCount m key = 0 := by
  induction m with
  | nil => rfl
  | cons p rest ih =>
    obtain ⟨k, v⟩ := p
    have hk : strLt key k = true := h (k, v) (List.mem_cons_self _ _)
    have hne : k ≠ key := fun e => strLt_ne key k hk e.symm
    simp only [getCount, hne, if_false]
    exact ih (fun q hq => h q (List.mem_cons_of_mem _ hq))

theorem mem_increment (m : CountMap) (item : Str) (p : Entry) (h : p ∈ increment m item) :
    p.1 = item ∨ p ∈ m := by
  induction m with
  | nil =>
    simp only [increment, List.mem_singleton] at h
    left; rw [h]
  | cons q rest ih =>
    obtain ⟨k, v⟩ := q
    simp only [increment] at h
    split at h
    · rcases List.mem_cons.mp h with h | h
      · left; rw [h]
      · right; exact h
    · split at h
      · rcases List.mem_cons.mp h with h | h
        · right; rw [h]; exact List.mem_cons_self _ _
        · rcases ih h with h | h
          · left; exact h
          · right; exact List.mem_cons_of_mem _ h
      · rename_i h1 h2
        have hk : item = k :=
          strLt_connex item k (by simpa using h1) (by simpa using h2)
        rcases List.mem_cons.mp h with h | h
        · left; rw [h, hk]
        · right; exact List.mem_cons_of_mem _ h

theorem keys_increment (m : CountMap) (item k : Str) :
    k ∈ (increment m item).map Prod.fst ↔ k = item ∨ k ∈ m.map Prod.fst := by
  induction m with
  | nil => simp [increment]
  | cons q rest ih =>
    obtain ⟨k', v⟩ := q
    simp only [increment]
    split
    · simp
    · split
      · simp only [List.map_cons, List.mem_cons, ih]
        tauto
      · rename_i h1 h2
        have hk : item = k' :=
          strLt_connex item k' (by simpa using h1) (by simpa using h2)
        simp only [List.map_cons, List.mem_cons, hk]
        tauto

theorem WF_increment (m : CountMap) (item : Str) (h : WF m) : WF (increment m item) := by
  induction m with
  | nil => simp [increment, WF]
  | cons q rest ih =>
    obtain ⟨k, v⟩ := q
    have hrest : WF rest := (List.pairwise_cons.mp h).2
    have hhead : ∀ p ∈ rest, strLt k p.1 = true := (List.pairwise_cons.mp h).1
    simp only [increment]
    split
    · rename_i h1
      refine List.pairwise_cons.mpr ⟨?_, h⟩
      intro p hp
      rcases List.mem_cons.mp hp with hp | hp
      · rw [hp]; exact h1
      · exact strLt_trans _ _ _ h1 (hhead p hp)
    · split
      · rename_i h1 h2
        refine List.pairwise_cons.mpr ⟨?_, ih hrest⟩
        intro p hp
        rcases mem_increment rest item p hp with hp | hp
        · rw [hp]; exact h2
        · exact hhead p hp
      · exact List.pairwise_cons.mpr ⟨hhead, hrest⟩

theorem getCount_increment (m : CountMap) (item key : Str) (h : WF m) :
    getCount (increment m item) key
      = if key = item then wrapInt (getCount m key + 1) else getCount m key := by
  induction m with
  | nil =>
    by_cases e : key = item
    · simp [increment, getCount, e]
    · have e' : ¬ item = key := fun x => e x.symm
      simp [increment, getCount, e, e']
  | cons q rest ih =>
    obtain ⟨k, v⟩ := q
    have hrest : WF rest := (List.pairwise_cons.mp h).2
    have hhead : ∀ p ∈ rest, strLt k p.1 = true := (List.pairwise_cons.mp h).1
    simp only [increment]
    split
    · rename_i h1
      by_cases e : key = item
      · subst e
        have h0 : getCount ((k, v) :: rest) key = 0 := by
          apply getCount_eq_zero_of_lt
          intro p hp
          rcases List.mem_cons.mp hp with hp | hp
          · rw [hp]; exact h1
          · exact strLt_trans _ _ _ h1 (hhead p hp)
        rw [h0]
        simp [getCount]
      · have e' : ¬ item = key := fun x => e x.symm
        simp [getCount, e, e']
    · split
      · rename_i h1 h2
        have hne : k ≠ item := strLt_ne k item h2
        by_cases e : k = key
        · have e2 : ¬ key = item := fun x => hne (e.trans x)
          simp [getCount, e, e2]
        · simp only [getCount, e, if_false]
          exact ih hrest
      · rename_i h1 h2
        have hk : item = k :=
          strLt_connex item k (by simpa using h1) (by simpa using h2)
        subst hk
        by_cases e : item = key
        · subst e
          simp [getCount]
        · have e' : ¬ key = item := fun x => e x.symm
          simp [getCount, e, e']

theorem InRange_increment (m : CountMap) (item : Str) (h : InRange m) :
    InRange (increment m item) := by
  induction m with
  | nil =>
    intro p hp
    simp only [increment, List.mem_singleton] at hp
    rw [hp]; exact wrapInt_inRange _
  | cons q rest ih =>
    obtain ⟨k, v⟩ := q
    have hrest : InRange rest := fun p hp => h p (List.mem_cons_of_mem _ hp)
    intro p hp
    simp only [increment] at hp
    split at hp
    · rcases List.mem_cons.mp hp with hp | hp
      · rw [hp]; exact wrapInt_inRange _
      · exact h p hp
    · split at hp
      · rcases List.mem_cons.mp hp with hp | hp
        · rw [hp]; exact h (k, v) (List.mem_cons_self _ _)
        · exact ih hrest p hp
      · rcases List.mem_cons.mp hp with hp | hp
        · rw [hp]; exact wrapInt_inRange _
        · exact hrest p hp

theorem getCount_inRange (m : CountMap) (key : Str) (h : InRange m) :
    INT_MIN ≤ getCount m key ∧ getCount m key ≤ INT_MAX := by
  induction m with
  | nil => simp [getCount, INT_MIN, INT_MAX]
  | cons q rest ih =>
    obtain ⟨k, v⟩ := q
    simp only [getCount]
    split
    · exact h (k, v) (List.mem_cons_self _ _)
    · exact ih (fun p hp => h p (List.mem_cons_of_mem _ hp))

theorem getCount_of_mem (m : CountMap) (h : WF m) (k : Str) (c : Int) (hm : (k, c) ∈ m) :
    getCount m k = c := by
  induction m with
  | nil => simp at hm
  | cons q rest ih =>
    obtain ⟨k', v⟩ := q
    have hrest : WF rest := (List.pairwise_cons.mp h).2
    have hhead : ∀ p ∈ rest, strLt k' p.1 = true := (List.pairwise_cons.mp h).1
    rcases List.mem_cons.mp hm with hm | hm
    · simp only [Prod.mk.injEq] at hm
      simp [getCount, hm.1, hm.2]
    · have hne : k' ≠ k := strLt_ne k' k (hhead (k, c) hm)
      simp only [getCount, hne, if_false]
      exact ih hrest hm

theorem mem_of_getCount (m : CountMap) (k : Str) (c : Int) (hc : c ≠ 0)
    (hg : getCount m k = c) : (k, c) ∈ m := by
  induction m with
  | nil => simp [getCount] at hg; exact absurd hg.symm hc
  | cons q rest ih =>
    obtain ⟨k', v⟩ := q
    simp only [getCount] at hg
    split at hg
    · rename_i e
      rw [← e, ← hg]; exact List.mem_cons_self _ _
    · exact List.mem_cons_of_mem _ (ih hg)

theorem WF_keys_nodup (m : CountMap) (h : WF m) : (m.map Prod.fst).Nodup := by
  unfold WF at h
  rw [List.Nodup, List.pairwise_map]
  exact h.imp (fun hab => strLt_ne _ _ hab)

theorem isEmpty_eq_false_of_ne_nil (s : Str) (h : s ≠ []) : s.isEmpty = false := by
  cases s with
  | nil => exact absurd rfl h
  | cons _ _ => rfl

/-- What the reading loop does to the mapping: well-formedness and the `int` range are kept,
and the count of every key is the `int` reached from its old count by as many increments as
there are lines whose trimmed text is that key (the empty text is never counted). -/
theorem readLoop_spec (lines : List Str) (counts : CountMap) (hwf : WF counts)
    (hin : InRange counts) :
    WF (readLoop lines counts) ∧ InRange (readLoop lines counts) ∧
    ∀ key, getCount (readLoop lines counts) key
      = wrapInt (getCount counts key
        + (if key = [] then 0 else (lines.countP (fun l => decide (trim l = key)) : Int))) := by
  induction lines generalizing counts with
  | nil =>
    refine ⟨hwf, hin, ?_⟩
    intro key
    have := getCount_inRange counts key hin
    simp [readLoop, wrapInt_of_inRange _ this.1 this.2]
  | cons line rest ih =>
    simp only [readLoop]
    by_cases he : trim line = []
    · simp only [he, List.isEmpty_nil, if_true]
      obtain ⟨h1, h2, h3⟩ := ih counts hwf hin
      refine ⟨h1, h2, ?_⟩
      intro key
      rw [h3 key]
      by_cases hk : key = []
      · simp [hk]
      · have : ¬ ([] : Str) = key := fun x => hk x.symm
        simp [hk, List.countP_cons, he, this]
    · simp only [isEmpty_eq_false_of_ne_nil _ he, Bool.false_eq_true, if_false]
      obtain ⟨h1, h2, h3⟩ := ih (increment counts (trim line))
        (WF_increment _ _ hwf) (InRange_increment _ _ hin)
      refine ⟨h1, h2, ?_⟩
      intro key
      rw [h3 key, getCount_increment _ _ _ hwf]
      by_cases hk : key = []
      · have : ¬ key = trim line := fun x => he (x.symm.trans hk)
        have h' : ¬ trim line = [] := he
        simp [hk, this, h']
      · by_cases hkt : key = trim line
        · subst hkt
          simp only [hk, if_false, if_true, List.countP_cons, decide_True, Nat.cast_add,
            Nat.cast_one]
          rw [wrapInt_wrapInt_add]
          congr 1
          omega
        · have : ¬ trim line = key := fun x => hkt x.symm
          simp [hk, hkt, List.countP_cons, this]

/-- The keys after the reading loop: the old ones and the non-empty trimmed lines. -/
theorem keys_readLoop (lines : List Str) (counts : CountMap) (k : Str) :
    k ∈ (readLoop lines counts).map Prod.fst
      ↔ k ∈ counts.map Prod.fst ∨ (k ≠ [] ∧ k ∈ lines.map trim) := by
  induction lines generalizing counts with
  | nil => simp [readLoop]
  | cons line rest ih =>
    simp only [readLoop]
    by_cases he : trim line = []
    · simp only [he, List.isEmpty_nil, if_true, ih, List.map_cons, List.mem_cons]
      constructor
      · rintro (h | ⟨h1, h2⟩)
        · left; exact h
        · right; exact ⟨h1, Or.inr h2⟩
      · rintro (h | ⟨h1, h2 | h2⟩)
        · left; exact h
        · exact absurd h2 h1
        · right; exact ⟨h1, h2⟩
    · simp only [isEmpty_eq_false_of_ne_nil _ he, Bool.false_eq_true, if_false, ih,
        keys_increment, List.map_cons, List.mem_cons]
      constructor
      · rintro ((h | h) | ⟨h1, h2⟩)
        · right; exact ⟨by rw [h]; exact he, Or.inl h⟩
        · left; exact h
        · right; exact ⟨h1, Or.inr h2⟩
      · rintro (h | ⟨h1, h2 | h2⟩)
        · left; right; exact h
        · left; left; exact h2
        · right; exact ⟨h1, h2⟩

theorem countP_replicate_of_pos (p : Str → Bool) (n : Nat) (l : Str) (h : p l = true) :
    (List.replicate n l).countP p = n := by
  induction n with
  | zero => rfl
  | succ n ih => simp [List.replicate_succ, List.countP_cons, h, ih]

theorem readLoop_cons_nonblank (line : Str) (rest : List Str) (counts : CountMap)
    (h : trim line ≠ []) :
    readLoop (line :: rest) counts = readLoop rest (increment counts (trim line)) := by
  simp only [readLoop, isEmpty_eq_false_of_ne_nil _ h, Bool.false_eq_true, if_false]

theorem increment_single (item : Str) (v : Int) :
    increment [(item, v)] item = [(item, wrapInt (v + 1))] := by
  simp only [increment, strLt_irrefl, Bool.false_eq_true, if_false]

/-- A log of `n + 1` copies of one line whose trimmed text is not empty: the mapping has the
single key with the `int` reached by `n + 1` increments from `0`. -/
theorem readLoop_replicate (l : Str) (h : trim l ≠ []) (n : Nat) :
    readLoop (List.replicate (n + 1) l) [] = [(trim l, wrapInt (n + 1))] := by
  have hstep : ∀ (m : Nat) (v : Int),
      readLoop (List.replicate m l) [(trim l, wrapInt v)] = [(trim l, wrapInt (v + m))] := by
    intro m
    induction m with
    | zero => intro v; simp [readLoop]
    | succ m ih =>
      intro v
      rw [List.replicate_succ, readLoop_cons_nonblank _ _ _ h, increment_single,
        wrapInt_wrapInt_add, ih (v + 1)]
      have : v + 1 + (m : Int) = v + ((m + 1 : Nat) : Int) := by push_cast; omega
      rw [this]
  rw [List.replicate_succ, readLoop_cons_nonblank _ _ _ h]
  show readLoop (List.replicate n l) [(trim l, wrapInt (0 + 1))] = _
  rw [hstep n (0 + 1)]
  have : (0 : Int) + 1 + (n : Int) = (n : Int) + 1 := by omega
  rw [this]

/-! ## Sorting -/

theorem byName_strictWeak : StrictWeak byName := by
  refine ⟨fun a => strLt_irrefl a.1, fun a b c => strLt_trans a.1 b.1 c.1, ?_⟩
  intro a b c h1 h2 h3 h4
  have e1 : a.1 = b.1 := strLt_connex _ _ h1 h2
  have e2 : b.1 = c.1 := strLt_connex _ _ h3 h4
  simp only [byName, e1, e2, strLt_irrefl, and_self]

theorem byFrequency_strictWeak : StrictWeak byFrequency := by
  refine ⟨?_, ?_, ?_⟩
  · intro a; simp [byFrequency]
  · intro a b c h1 h2
    simp only [byFrequency, decide_eq_true_eq] at h1 h2 ⊢
    omega
  · intro a b c h1 h2 h3 h4
    simp only [byFrequency, decide_eq_false_iff_not] at h1 h2 h3 h4 ⊢
    omega

theorem orderedInsert_perm (comp : Entry → Entry → Bool) (x : Entry) (l : List Entry) :
    (orderedInsert comp x l).Perm (x :: l) := by
  induction l with
  | nil => exact List.Perm.refl _
  | cons y ys ih =>
    simp only [orderedInsert]
    split
    · exact List.Perm.refl _
    · exact ((List.Perm.cons y ih).trans (List.Perm.swap x y ys))

theorem insertionSort_perm (comp : Entry → Entry → Bool) (l : List Entry) :
    (insertionSort comp l).Perm l := by
  induction l with
  | nil => exact List.Perm.refl _
  | cons x xs ih =>
    exact (orderedInsert_perm comp x _).trans (List.Perm.cons x ih)

theorem orderedInsert_sorted (comp : Entry → Entry → Bool) (hc : StrictWeak comp) (x : Entry)
    (l : List Entry) (h : l.Pairwise (fun a b => comp b a = false)) :
    (orderedInsert comp x l).Pairwise (fun a b => comp b a = false) := by
  induction l with
  | nil => simp [orderedInsert]
  | cons y ys ih =>
    have hy : ∀ b ∈ ys, comp b y = false := (List.pairwise_cons.mp h).1
    have hys := (List.pairwise_cons.mp h).2
    simp only [orderedInsert]
    split
    · rename_i hxy
      refine List.pairwise_cons.mpr ⟨?_, h⟩
      intro b hb
      cases hbx : comp b x with
      | false => rfl
      | true =>
        have hby : comp b y = true := hc.2.1 b x y hbx hxy
        rcases List.mem_cons.mp hb with hb | hb
        · rw [hb, hc.1 y] at hby; exact absurd hby (by decide)
        · rw [hy b hb] at hby; exact absurd hby (by decide)
    · rename_i hxy
      refine List.pairwise_cons.mpr ⟨?_, ih hys⟩
      intro b hb
      rcases List.mem_cons.mp ((orderedInsert_perm comp x ys).mem_iff.mp hb) with hb | hb
      · rw [hb]; simpa using hxy
      · exact hy b hb

theorem insertionSort_sorted (comp : Entry → Entry → Bool) (hc : StrictWeak comp)
    (l : List Entry) : (insertionSort comp l).Pairwise (fun a b => comp b a = false) := by
  induction l with
  | nil => exact List.Pairwise.nil
  | cons x xs ih => exact orderedInsert_sorted comp hc x _ ih

/-- Insertion sort meets the contract of `std::sort`. -/
def referenceSort : StdSort where
  sort := insertionSort
  perm := fun comp l _ => insertionSort_perm comp l
  sorted := fun comp l hc => insertionSort_sorted comp hc l

/-- The only permutation of a strictly ascending mapping that is sorted by name is the
mapping itself. -/
theorem sort_byName_eq (S : StdSort) (counts : CountMap) (hwf : WF counts) :
    S.sort byName counts = counts := by
  have hperm := S.perm byName counts byName_strictWeak
  have hsorted := S.sorted byName counts byName_strictWeak
  have hne : counts.Pairwise (fun a b => a.1 ≠ b.1) := hwf.imp (fun h => strLt_ne _ _ h)
  have hne' : (S.sort byName counts).Pairwise (fun a b => a.1 ≠ b.1) :=
    (hperm.pairwise_iff (fun h => Ne.symm h)).mpr hne
  have hstrict : (S.sort byName counts).Pairwise (fun a b => strLt a.1 b.1 = true) := by
    refine (hsorted.and hne').imp ?_
    rintro a b ⟨h1, h2⟩
    cases hab : strLt a.1 b.1 with
    | true => rfl
    | false => exact absurd (strLt_connex _ _ hab h1) h2
  haveI : IsAntisymm Entry (fun a b => strLt a.1 b.1 = true) :=
    ⟨fun a b h1 h2 => by
      have := strLt_asymm _ _ h1
      rw [h2] at this; exact absurd this (by decide)⟩
  exact List.eq_of_perm_of_sorted hperm hstrict hwf

theorem perm_pair {α : Type} (l : List α) (a b : α) (h : l.Perm [a, b]) :
    l = [a, b] ∨ l = [b, a] := by
  have hlen := h.length_eq
  match l, hlen with
  | [x, y], _ =>
    have hx : x ∈ [a, b] := h.mem_iff.mp (List.mem_cons_self _ _)
    simp only [List.mem_cons, List.mem_singleton, List.not_mem_nil, or_false] at hx
    rcases hx with hx | hx
    · subst hx
      have := List.perm_singleton.mp ((List.perm_cons x).mp h)
      left; simpa using this
    · subst hx
      have h2 : [x, y].Perm [x, a] := h.trans (List.Perm.swap x a [])
      have := List.perm_singleton.mp ((List.perm_cons x).mp h2)
      right; simpa using this

/-! ## The log loader -/

/-- C1 (as amended): for every list of input lines the loader succeeds with a mapping whose
keys are pairwise distinct and strictly ascending and are exactly the non-empty values of
`trim line`; the count stored for a key is the number of lines whose trimmed text is byte for
byte that key, whenever that number is at most `INT_MAX` = 2147483647, the largest value of
the `int` that holds the count. -/
theorem readDailyLog_keys_and_counts (inputFileName : Str) (lines : List Str) :
    readDailyLog inputFileName (some lines) [] = .ok (readLoop lines []) ∧
    WF (readLoop lines []) ∧ ((readLoop lines []).map Prod.fst).Nodup ∧
    (∀ k, k ∈ (readLoop lines []).map Prod.fst ↔ (k ≠ [] ∧ k ∈ lines.map trim)) ∧
    (∀ k c, (k, c) ∈ readLoop lines [] →
      (lines.countP (fun l => decide (trim l = k)) : Int) ≤ INT_MAX →
      c = (lines.countP (fun l => decide (trim l = k)) : Int)) := by
  obtain ⟨hwf, -, hcount⟩ :=
    readLoop_spec lines [] List.Pairwise.nil (fun p hp => absurd hp (List.not_mem_nil p))
  refine ⟨rfl, hwf, WF_keys_nodup _ hwf, ?_, ?_⟩
  · intro k
    rw [keys_readLoop]
    simp
  · intro k c hm hb
    have h1 : getCount (readLoop lines []) k = c := getCount_of_mem _ hwf _ _ hm
    have hk : k ≠ [] := by
      have : k ∈ (readLoop lines []).map Prod.fst := List.mem_map.mpr ⟨_, hm, rfl⟩
      rw [keys_readLoop] at this
      simpa using this.resolve_left (by simp) |>.1
    rw [hcount k] at h1
    simp only [hk, if_false, getCount, zero_add] at h1
    rw [← h1]
    apply wrapInt_of_inRange
    · simp only [INT_MIN]; omega
    · exact hb

/-- Witness for C1: a short log with a repeated line and a blank line. -/
theorem readDailyLog_keys_and_counts_witness :
    (2 : Int) = (([ascii "b", ascii " a", [], ascii "b "] : List Str).countP
      (fun l => decide (trim l = ascii "b")) : Int) :=
  (readDailyLog_keys_and_counts (ascii "log.txt")
    [ascii "b", ascii " a", [], ascii "b "]).2.2.2.2 (ascii "b") 2 (by decide) (by decide)

/-- Counterexample for C1 as stated: a log of 2147483648 lines "a" loads to the single entry
"a" whose `int` count has wrapped to -2147483648; the number of lines whose trimmed text is
"a" is 2147483648, more than `INT_MAX`, so the stored count is not that number. -/
theorem readDailyLog_count_counterexample :
    readDailyLog (ascii "log.txt") (some (List.replicate 2147483648 (ascii "a"))) []
      = .ok [(ascii "a", -2147483648)] ∧
    (List.replicate 2147483648 (ascii "a")).countP (fun l => decide (trim l = ascii "a"))
      = 2147483648 ∧
    INT_MAX < 2147483648 ∧
    ¬ ((-2147483648 : Int) = (((List.replicate 2147483648 (ascii "a")).countP
      (fun l => decide (trim l = ascii "a")) : Nat) : Int)) := by
  have hc : (List.replicate 2147483648 (ascii "a")).countP
      (fun l => decide (trim l = ascii "a")) = 2147483648 :=
    countP_replicate_of_pos _ _ _ (by decide)
  refine ⟨?_, hc, by decide, ?_⟩
  · have h := readLoop_replicate (ascii "a") (by decide) 2147483647
    have ht : trim (ascii "a") = ascii "a" := by decide
    have hw : wrapInt ((2147483647 : Nat) + 1) = -2147483648 := by decide
    rw [ht, hw] at h
    exact congrArg Except.ok h
  · rw [hc]; decide

theorem find?_some_split {α : Type} (p : α → Bool) :
    ∀ (l : List α) (b : α), l.find? p = some b →
      p b = true ∧ ∃ pre post, l = pre ++ b :: post ∧ ∀ a ∈ pre, p a = false
  | [], b, h => by simp at h
  | x :: xs, b, h => by
    by_cases hx : p x = true
    · rw [List.find?_cons_of_pos _ hx] at h
      cases h
      exact ⟨hx, [], xs, rfl, fun a ha => absurd ha (List.not_mem_nil a)⟩
    · rw [List.find?_cons_of_neg _ hx] at h
      obtain ⟨hb, pre, post, hl, hpre⟩ := find?_some_split p xs b h
      refine ⟨hb, x :: pre, post, by rw [hl]; rfl, ?_⟩
      intro a ha
      rcases List.mem_cons.mp ha with ha | ha
      · rw [ha]; simpa using hx
      · exact hpre a ha

theorem printFound_ne_suggestionText (item : Str) (count : Int) (input : Str) (sugg : List Str) :
    printFound item count ≠ suggestionText input sugg := by
  intro h
  have := congrArg List.head? h
  simp [printFound, suggestionText, ascii] at this
  revert this; decide

theorem printFound_ne_noMatchText (item : Str) (count : Int) (input : Str) :
    printFound item count ≠ noMatchText input := by
  intro h
  have := congrArg List.head? h
  simp [printFound, noMatchText, ascii] at this
  revert this; decide

theorem suggestionText_ne_noMatchText (input : Str) (sugg : List Str) (input' : Str) :
    suggestionText input sugg ≠ noMatchText input' := by
  intro h
  have := congrArg List.head? h
  simp [suggestionText, noMatchText, ascii] at this
  revert this; decide

/-- When some key of the mapping equals the trimmed query after case folding,
`lookupSingleItem` writes the found message, never the suggestion or the no-match text, and
the name and count it reports are those of the first such entry in iteration order, which for
a well-formed mapping is the one with the smallest key. -/
theorem lookupSingleItem_found (counts : CountMap) (stdin : List Str) (hwf : WF counts)
    (hex : ∃ p ∈ counts, toLower p.1 = toLower (trim (getline stdin).1)) :
    ∃ k c, (k, c) ∈ counts ∧ toLower k = toLower (trim (getline stdin).1) ∧
      lookupSingleItem counts stdin = (lookupPrompt ++ printFound k c, (getline stdin).2) ∧
      (∀ p ∈ counts, toLower p.1 = toLower (trim (getline stdin).1) →
        p = (k, c) ∨ strLt k p.1 = true) ∧
      (∀ input sugg, (lookupSingleItem counts stdin).1 ≠ lookupPrompt ++ suggestionText input sugg) ∧
      (∀ input, (lookupSingleItem counts stdin).1 ≠ lookupPrompt ++ noMatchText input) := by
  obtain ⟨p0, hp0, hp0m⟩ := hex
  have hsome : (counts.find? (fun p => toLower p.1 == toLower (trim (getline stdin).1))).isSome
      = true := List.find?_isSome.mpr ⟨p0, hp0, by simpa using hp0m⟩
  obtain ⟨q, hq⟩ := Option.isSome_iff_exists.mp hsome
  obtain ⟨hqm, pre, post, hsplit, hpre⟩ := find?_some_split _ _ _ hq
  obtain ⟨k, c⟩ := q
  have hout : lookupSingleItem counts stdin
      = (lookupPrompt ++ printFound k c, (getline stdin).2) := by
    simp only [lookupSingleItem, hq]
  refine ⟨k, c, ?_, by simpa using hqm, hout, ?_, ?_, ?_⟩
  · rw [hsplit]; simp
  · intro p hp hpm
    rw [hsplit] at hp hwf
    rcases List.mem_append.mp hp with hp | hp
    · have := hpre p hp
      simp [hpm] at this
    · rcases List.mem_cons.mp hp with hp | hp
      · left; exact hp
      · right
        have h2 := (List.pairwise_append.mp hwf).2.1
        exact (List.pairwise_cons.mp h2).1 p hp
  · intro input sugg h
    rw [hout] at h
    exact printFound_ne_suggestionText _ _ _ _ (List.append_cancel_left h)
  · intro input h
    rw [hout] at h
    exact printFound_ne_noMatchText _ _ _ (List.append_cancel_left h)

theorem toLower_three_queries (q : Str)
    (hq : q ∈ [ascii "apples", ascii "APPLES", ascii "Apples"]) :
    toLower (trim q) = ascii "apples" := by
  simp only [List.mem_cons, List.mem_singleton, List.not_mem_nil, or_false] at hq
  rcases hq with h | h | h <;> subst h <;> decide

/-- C3 (as amended): when some key of a well-formed mapping equals the trimmed query after
case folding, `lookupSingleItem` writes the found message (never the suggestion or no-match
text) for the first such entry in ascending key order, with its stored spelling and count.
In particular the queries "apples", "APPLES" and "Apples" against a mapping that holds
"Apples" with count 3, and no smaller key that folds to "apples", all produce output
containing "'Apples' was purchased 3 times.". -/
theorem lookupSingleItem_exact_match (counts : CountMap) (stdin : List Str) (hwf : WF counts)
    (hex : ∃ p ∈ counts, toLower p.1 = toLower (trim (getline stdin).1)) :
    (∃ k c, (k, c) ∈ counts ∧ toLower k = toLower (trim (getline stdin).1) ∧
      lookupSingleItem counts stdin = (lookupPrompt ++ printFound k c, (getline stdin).2) ∧
      (∀ p ∈ counts, toLower p.1 = toLower (trim (getline stdin).1) →
        p = (k, c) ∨ strLt k p.1 = true) ∧
      (∀ input sugg,
        (lookupSingleItem counts stdin).1 ≠ lookupPrompt ++ suggestionText input sugg) ∧
      (∀ input, (lookupSingleItem counts stdin).1 ≠ lookupPrompt ++ noMatchText input)) ∧
    ((ascii "Apples", 3) ∈ counts →
      (∀ p ∈ counts, strLt p.1 (ascii "Apples") = true → toLower p.1 ≠ ascii "apples") →
      (getline stdin).1 ∈ [ascii "apples", ascii "APPLES", ascii "Apples"] →
      ascii "'Apples' was purchased 3 times." <:+: (lookupSingleItem counts stdin).1) := by
  have hfound := lookupSingleItem_found counts stdin hwf hex
  refine ⟨hfound, ?_⟩
  intro hmem hsmall hq
  obtain ⟨k, c, hkc, hk, hout, hfirst, -, -⟩ := hfound
  have hfold := toLower_three_queries _ hq
  have hA : toLower (ascii "Apples") = toLower (trim (getline stdin).1) := by
    rw [hfold]; decide
  have hkc' : (ascii "Apples", (3 : Int)) = (k, c) := by
    rcases hfirst _ hmem hA with h | h
    · exact h
    · exact absurd (hk.trans hfold) (hsmall (k, c) hkc h)
  simp only [Prod.mk.injEq] at hkc'
  rw [hout, ← hkc'.1, ← hkc'.2]
  refine ⟨lookupPrompt ++ ascii "Great news! ", ascii "\n", ?_⟩
  show _ = lookupPrompt ++ printFound (ascii "Apples") 3
  decide

/-- Witness for C3: the mapping of the specification's examples and the query "APPLES". -/
theorem lookupSingleItem_exact_match_witness :
    ascii "'Apples' was purchased 3 times." <:+:
      (lookupSingleItem [(ascii "Apples", 3), (ascii "Apricots", 1), (ascii "Bananas", 2)]
        [ascii "APPLES"]).1 :=
  (lookupSingleItem_exact_match
    [(ascii "Apples", 3), (ascii "Apricots", 1), (ascii "Bananas", 2)] [ascii "APPLES"]
    (by decide) ⟨(ascii "Apples", 3), by decide, by decide⟩).2
    (by decide) (by decide) (by decide)

set_option maxRecDepth 100000 in
/-- Counterexample for C3 as stated: the log "APPLES" (five times), "Apples" (three times)
loads into a mapping that holds "Apples" with count 3, yet the query "apples" reports the
entry "APPLES", which comes first in key order, and the output does not contain
"'Apples' was purchased 3 times.". -/
theorem lookupSingleItem_apples_counterexample :
    readDailyLog (ascii "log.txt")
        (some (List.replicate 5 (ascii "APPLES") ++ List.replicate 3 (ascii "Apples"))) []
      = .ok [(ascii "APPLES", 5), (ascii "Apples", 3)] ∧
    (ascii "Apples", 3) ∈ [(ascii "APPLES", 5), (ascii "Apples", (3 : Int))] ∧
    (lookupSingleItem [(ascii "APPLES", 5), (ascii "Apples", 3)] [ascii "apples"]).1
      = lookupPrompt ++ ascii "Great news! 'APPLES' was purchased 5 times.\n" ∧
    ¬ (ascii "'Apples' was purchased 3 times." <:+:
      (lookupSingleItem [(ascii "APPLES", 5), (ascii "Apples", 3)] [ascii "apples"]).1) := by
  refine ⟨congrArg Except.ok (by decide), by decide, by decide, by decide⟩

theorem mem_suggestions (counts : CountMap) (lowerInput k : Str) :
    k ∈ suggestions counts lowerInput ↔ k ∈ counts.map Prod.fst ∧ lowerInput <+: toLower k := by
  simp only [suggestions, List.mem_map, List.mem_filter, List.isPrefixOf_iff_prefix]
  constructor
  · rintro ⟨p, ⟨hp, hpre⟩, rfl⟩
    exact ⟨⟨p, hp, rfl⟩, hpre⟩
  · rintro ⟨⟨p, hp, rfl⟩, hpre⟩
    exact ⟨p, ⟨hp, hpre⟩, rfl⟩

theorem suggestions_sublist (counts : CountMap) (lowerInput : Str) :
    (suggestions counts lowerInput).Sublist (counts.map Prod.fst) :=
  (List.filter_sublist counts).map Prod.fst

theorem WF_keys_sorted (m : CountMap) (h : WF m) :
    (m.map Prod.fst).Pairwise (fun a b => strLt a b = true) := by
  rw [List.pairwise_map]; exact h

/-- The suggestions of `lookupSingleItem` in terms of `suggestionText` and `noMatchText`. -/
theorem suggestions_output_text (counts : CountMap) (stdin : List Str) (hwf : WF counts)
    (hno : ∀ p ∈ counts, toLower p.1 ≠ toLower (trim (getline stdin).1)) :
    (∀ k, k ∈ suggestions counts (toLower (trim (getline stdin).1)) ↔
      k ∈ counts.map Prod.fst ∧ toLower (trim (getline stdin).1) <+: toLower k) ∧
    (suggestions counts (toLower (trim (getline stdin).1))).Sublist (counts.map Prod.fst) ∧
    (suggestions counts (toLower (trim (getline stdin).1))).Pairwise
      (fun a b => strLt a b = true) ∧
    (suggestions counts (toLower (trim (getline stdin).1))).Nodup ∧
    (suggestions counts (toLower (trim (getline stdin).1)) ≠ [] →
      lookupSingleItem counts stdin
        = (lookupPrompt ++ suggestionText (trim (getline stdin).1)
            (suggestions counts (toLower (trim (getline stdin).1))), (getline stdin).2)) ∧
    (lookupSingleItem counts stdin
        = (lookupPrompt ++ noMatchText (trim (getline stdin).1), (getline stdin).2)
      ↔ suggestions counts (toLower (trim (getline stdin).1)) = []) ∧
    suggestions [(ascii "Apples", 3), (ascii "Apricots", 1), (ascii "Bananas", 2)]
        (toLower (trim (ascii "ap"))) = [ascii "Apples", ascii "Apricots"] ∧
    lookupSingleItem [(ascii "Apples", 3), (ascii "Apricots", 1), (ascii "Bananas", 2)]
        [ascii "zzz"] = (lookupPrompt ++ noMatchText (ascii "zzz"), []) := by
  have hsorted : (suggestions counts (toLower (trim (getline stdin).1))).Pairwise
      (fun a b => strLt a b = true) :=
    List.Pairwise.sublist (suggestions_sublist _ _) (WF_keys_sorted _ hwf)
  have hnone : counts.find? (fun p => toLower p.1 == toLower (trim (getline stdin).1)) = none := by
    rw [List.find?_eq_none]
    intro p hp
    simpa using hno p hp
  have hyes : suggestions counts (toLower (trim (getline stdin).1)) ≠ [] →
      lookupSingleItem counts stdin
        = (lookupPrompt ++ suggestionText (trim (getline stdin).1)
            (suggestions counts (toLower (trim (getline stdin).1))), (getline stdin).2) := by
    intro hne
    have : (suggestions counts (toLower (trim (getline stdin).1))).isEmpty = false := by
      cases hs : suggestions counts (toLower (trim (getline stdin).1)) with
      | nil => exact absurd hs hne
      | cons _ _ => rfl
    simp only [lookupSingleItem, hnone, this]
    rfl
  refine ⟨mem_suggestions _ _, suggestions_sublist _ _, hsorted,
    hsorted.imp (fun h => strLt_ne _ _ h), hyes, ?_, by decide, by decide⟩
  constructor
  · intro hout
    by_contra hne
    rw [hyes hne] at hout
    simp only [Prod.mk.injEq, and_true] at hout
    exact suggestionText_ne_noMatchText _ _ _ (List.append_cancel_left hout)
  · intro hs
    simp only [lookupSingleItem, hnone, hs]
    rfl

/-- C4: when no key equals the trimmed query after case folding, the suggestions are exactly
the keys whose case-folded text starts with the case-folded trimmed query, in ascending key
order and without repetition. When there is at least one, the output is the prompt, the line
"I couldn’t find "<query>" exactly. Did you mean:" and one line "  - <key>" for each
suggestion in that order; the output is the prompt and "No items match "<query>"." exactly
when there is none. For the mapping Apples 3, Apricots 1, Bananas 2 the query "ap" lists
Apples and Apricots and the query "zzz" gives the no-match line. -/
theorem lookupSingleItem_suggestions (counts : CountMap) (stdin : List Str) (hwf : WF counts)
    (hno : ∀ p ∈ counts, toLower p.1 ≠ toLower (trim (getline stdin).1)) :
    (∀ k, k ∈ suggestions counts (toLower (trim (getline stdin).1)) ↔
      k ∈ counts.map Prod.fst ∧ toLower (trim (getline stdin).1) <+: toLower k) ∧
    (suggestions counts (toLower (trim (getline stdin).1))).Sublist (counts.map Prod.fst) ∧
    (suggestions counts (toLower (trim (getline stdin).1))).Pairwise
      (fun a b => strLt a b = true) ∧
    (suggestions counts (toLower (trim (getline stdin).1))).Nodup ∧
    (suggestions counts (toLower (trim (getline stdin).1)) ≠ [] →
      lookupSingleItem counts stdin
        = (ascii "Enter item name (e.g. Apples): "
            ++ (ascii "I couldn" ++ [0xE2, 0x80, 0x99] ++ ascii "t find \""
              ++ trim (getline stdin).1 ++ ascii "\" exactly. Did you mean:\n"
              ++ ((suggestions counts (toLower (trim (getline stdin).1))).map
                (fun k => ascii "  - " ++ k ++ ascii "\n")).flatten),
          (getline stdin).2)) ∧
    (lookupSingleItem counts stdin
        = (ascii "Enter item name (e.g. Apples): "
            ++ (ascii "No items match \"" ++ trim (getline stdin).1 ++ ascii "\".\n"),
          (getline stdin).2)
      ↔ suggestions counts (toLower (trim (getline stdin).1)) = []) ∧
    suggestions [(ascii "Apples", 3), (ascii "Apricots", 1), (ascii "Bananas", 2)]
        (toLower (trim (ascii "ap"))) = [ascii "Apples", ascii "Apricots"] ∧
    lookupSingleItem [(ascii "Apples", 3), (ascii "Apricots", 1), (ascii "Bananas", 2)]
        [ascii "ap"]
      = (ascii "Enter item name (e.g. Apples): I couldn" ++ [0xE2, 0x80, 0x99]
          ++ ascii "t find \"ap\" exactly. Did you mean:\n  - Apples\n  - Apricots\n", []) ∧
    lookupSingleItem [(ascii "Apples", 3), (ascii "Apricots", 1), (ascii "Bananas", 2)]
        [ascii "zzz"]
      = (ascii "Enter item name (e.g. Apples): No items match \"zzz\".\n", []) := by
  obtain ⟨h1, h2, h3, h4, h5, h6, h7, -⟩ := suggestions_output_text counts stdin hwf hno
  exact ⟨h1, h2, h3, h4, h5, h6, h7, by decide, by decide⟩

set_option maxRecDepth 100000 in
/-- Witness for C4: the query "Ba" against the mapping of the specification's example. -/
theorem lookupSingleItem_suggestions_witness :
    lookupSingleItem [(ascii "Apples", 3), (ascii "Apricots", 1), (ascii "Bananas", 2)]
        [ascii " Ba"]
      = (ascii "Enter item name (e.g. Apples): I couldn" ++ [0xE2, 0x80, 0x99]
          ++ ascii "t find \"Ba\" exactly. Did you mean:\n  - Bananas\n", []) :=
  ((lookupSingleItem_suggestions
    [(ascii "Apples", 3), (ascii "Apricots", 1), (ascii "Bananas", 2)] [ascii " Ba"]
    (by decide) (by decide)).2.2.2.2.1 (by decide)).trans (by decide)

/-! ## The found message -/

theorem suffix_tail_eq {α : Type} (a x b y : List α) (h : (a ++ x) <:+ (b ++ y))
    (hlen : x.length = y.length) : x = y := by
  obtain ⟨r, hr⟩ := h
  rw [← List.append_assoc] at hr
  exact (List.append_inj' hr hlen).2

/-- C5: the message of `printFound` is one line of text. For every item name and count that
line ends with "was purchased <count> time." exactly when the count is 1 and with
"was purchased <count> times." exactly when the count is not 1, hence for every count of at
least 2. -/
theorem printFound_plural (item : Str) (count : Int) :
    ∃ text, printFound item count = text ++ ascii "\n" ∧
      ((ascii "was purchased " ++ decimal count ++ ascii " time.") <:+ text ↔ count = 1) ∧
      ((ascii "was purchased " ++ decimal count ++ ascii " times.") <:+ text ↔ count ≠ 1) ∧
      (∀ n : Nat, count = n + 2 →
        (ascii "was purchased " ++ decimal count ++ ascii " times.") <:+ text) := by
  refine ⟨ascii "Great news! '" ++ item ++ ascii "' was purchased " ++ decimal count
    ++ (if count = 1 then ascii " time." else ascii " times."), ?_, ?_, ?_, ?_⟩
  · by_cases h : count = 1 <;> simp [printFound, h, ascii]
  · constructor
    · intro h
      by_contra hne
      simp only [hne, if_false] at h
      have h2 : (ascii "was purchased " ++ decimal count ++ ascii " tim") ++ ascii "e."
          <:+ (ascii "Great news! '" ++ item ++ ascii "' was purchased " ++ decimal count
            ++ ascii " time") ++ ascii "s." := by
        have e1 : (ascii "was purchased " ++ decimal count ++ ascii " tim") ++ ascii "e."
            = ascii "was purchased " ++ decimal count ++ ascii " time." := by
          simp [ascii]
        have e2 : (ascii "Great news! '" ++ item ++ ascii "' was purchased " ++ decimal count
            ++ ascii " time") ++ ascii "s."
            = ascii "Great news! '" ++ item ++ ascii "' was purchased " ++ decimal count
              ++ ascii " times." := by
          simp [ascii]
        rw [e1, e2]; exact h
      have := suffix_tail_eq _ _ _ _ h2 (by decide)
      revert this; decide
    · intro h
      refine ⟨ascii "Great news! '" ++ item ++ ascii "' ", ?_⟩
      simp [h, ascii]
  · constructor
    · intro h hone
      simp only [hone, if_true] at h
      have h2 : (ascii "was purchased " ++ decimal 1 ++ ascii " time") ++ ascii "s."
          <:+ (ascii "Great news! '" ++ item ++ ascii "' was purchased " ++ decimal 1
            ++ ascii " tim") ++ ascii "e." := by
        have e1 : (ascii "was purchased " ++ decimal 1 ++ ascii " time") ++ ascii "s."
            = ascii "was purchased " ++ decimal 1 ++ ascii " times." := by
          simp [ascii]
        have e2 : (ascii "Great news! '" ++ item ++ ascii "' was purchased " ++ decimal 1
            ++ ascii " tim") ++ ascii "e."
            = ascii "Great news! '" ++ item ++ ascii "' was purchased " ++ decimal 1
              ++ ascii " time." := by
          simp [ascii]
        rw [e1, e2]; exact h
      have := suffix_tail_eq _ _ _ _ h2 (by decide)
      revert this; decide
    · intro h
      refine ⟨ascii "Great news! '" ++ item ++ ascii "' ", ?_⟩
      simp [h, ascii]
  · intro n hn
    have h : count ≠ 1 := by omega
    refine ⟨ascii "Great news! '" ++ item ++ ascii "' ", ?_⟩
    simp [h, ascii]

/-! ## The full listing -/

/-- The listing by frequency in terms of `tableRow`. -/
theorem listing_by_frequency_rows (S : StdSort) (counts : CountMap) (stdin : List Str)
    (h2 : sortChoiceOf (getline stdin).1 = 2) :
    displayAllCounts S counts stdin
      = (sortPrompt ++ tableHeader ++ (sortedEntries S counts 2).flatMap tableRow,
          (getline stdin).2) ∧
    (sortedEntries S counts 2).Perm counts ∧
    (sortedEntries S counts 2).Pairwise (fun a b => b.2 ≤ a.2) ∧
    sortedEntries S [(ascii "Apples", 3), (ascii "Bananas", 2)] 2
      = [(ascii "Apples", 3), (ascii "Bananas", 2)] := by
  have hdef : ∀ m, sortedEntries S m 2 = S.sort byFrequency m := by
    intro m; simp [sortedEntries]
  have hperm : ∀ m, (sortedEntries S m 2).Perm m := by
    intro m; rw [hdef]; exact S.perm _ _ byFrequency_strictWeak
  have hsorted : ∀ m, (sortedEntries S m 2).Pairwise (fun a b => b.2 ≤ a.2) := by
    intro m; rw [hdef]
    refine (S.sorted _ m byFrequency_strictWeak).imp ?_
    intro a b hab
    simp only [byFrequency, decide_eq_false_iff_not] at hab
    omega
  refine ⟨?_, hperm counts, hsorted counts, ?_⟩
  · simp only [displayAllCounts, h2]
  · rcases perm_pair _ _ _ (hperm [(ascii "Apples", 3), (ascii "Bananas", 2)]) with h | h
    · exact h
    · have hs := hsorted [(ascii "Apples", 3), (ascii "Bananas", 2)]
      rw [h] at hs
      simp at hs

/-- The listing by name in terms of `tableRow` and `backupLine`. -/
theorem listing_by_name_rows (S : StdSort) (counts : CountMap) (stdin : List Str)
    (hwf : WF counts) (h1 : sortChoiceOf (getline stdin).1 = 1) :
    sortedEntries S counts 1 = counts ∧
    displayAllCounts S counts stdin
      = (sortPrompt ++ tableHeader ++ counts.flatMap tableRow, (getline stdin).2) ∧
    (sortedEntries S counts 1).Pairwise (fun a b => strLt a.1 b.1 = true) ∧
    (∀ old, (writeBackupFile true old counts).1
      = (sortedEntries S counts 1).flatMap backupLine) ∧
    sortedEntries S (readLoop [ascii "Bananas", ascii "Apples", ascii "Bananas",
        ascii "Apples", ascii "Apples"] []) 1
      = [(ascii "Apples", 3), (ascii "Bananas", 2)] := by
  have hdef : ∀ m, WF m → sortedEntries S m 1 = m := by
    intro m hm
    simp only [sortedEntries, if_true]
    exact sort_byName_eq S m hm
  refine ⟨hdef counts hwf, ?_, ?_, ?_, ?_⟩
  · simp only [displayAllCounts, h1, hdef counts hwf]
  · rw [hdef counts hwf]; exact hwf
  · intro old
    rw [hdef counts hwf]
    simp [writeBackupFile]
  · have hm : readLoop [ascii "Bananas", ascii "Apples", ascii "Bananas",
        ascii "Apples", ascii "Apples"] [] = [(ascii "Apples", 3), (ascii "Bananas", 2)] := by
      decide
    rw [hm]
    exact hdef _ (by decide)

set_option maxRecDepth 100000 in
/-- C6: with sort choice 2 `displayAllCounts` writes, after its prompt and the table header,
one row for each entry of a permutation of the mapping's entries in which the counts never
increase from one row to the next. A row is the name, spaces up to a width of 18, the decimal
count of that same entry preceded by spaces up to a width of 5, and a line end. For the
mapping Apples 3, Bananas 2 the rows are Apples 3, Bananas 2. This holds for every
implementation of `std::sort`. -/
theorem displayAllCounts_by_frequency (S : StdSort) (counts : CountMap) (stdin : List Str)
    (h2 : sortChoiceOf (getline stdin).1 = 2) :
    displayAllCounts S counts stdin
      = (ascii "Sort by: 1) Name  2) Frequency (highest first)\nYour choice: "
          ++ ascii "\nItem               Count\n--------------------------\n"
          ++ ((sortedEntries S counts 2).map
            (fun p => p.1 ++ List.replicate (18 - p.1.length) 32
              ++ (List.replicate (5 - (decimal p.2).length) 32 ++ decimal p.2) ++ ascii "\n")).flatten,
          (getline stdin).2) ∧
    (sortedEntries S counts 2).Perm counts ∧
    (sortedEntries S counts 2).Pairwise (fun a b => b.2 ≤ a.2) ∧
    sortedEntries S [(ascii "Apples", 3), (ascii "Bananas", 2)] 2
      = [(ascii "Apples", 3), (ascii "Bananas", 2)] ∧
    displayAllCounts S [(ascii "Apples", 3), (ascii "Bananas", 2)] [ascii "2"]
      = (ascii "Sort by: 1) Name  2) Frequency (highest first)\nYour choice: \nItem               Count\n--------------------------\n"
          ++ ascii "Apples                3\nBananas               2\n", []) := by
  obtain ⟨h1, hp, hs, he⟩ := listing_by_frequency_rows S counts stdin h2
  refine ⟨h1, hp, hs, he, ?_⟩
  rw [(listing_by_frequency_rows S [(ascii "Apples", 3), (ascii "Bananas", 2)]
    [ascii "2"] (by decide)).1, he]
  decide

set_option maxRecDepth 100000 in
/-- Witness for C6: the line "2" and insertion sort as `std::sort`. -/
theorem displayAllCounts_by_frequency_witness :
    displayAllCounts referenceSort
        [(ascii "Apples", 3), (ascii "Apricots", 1), (ascii "Bananas", 12)] [ascii "2"]
      = (ascii "Sort by: 1) Name  2) Frequency (highest first)\nYour choice: \nItem               Count\n--------------------------\n"
          ++ ascii "Bananas              12\nApples                3\nApricots              1\n", []) :=
  ((displayAllCounts_by_frequency referenceSort
    [(ascii "Apples", 3), (ascii "Apricots", 1), (ascii "Bananas", 12)] [ascii "2"]
    (by decide)).1).trans (by decide)

set_option maxRecDepth 100000 in
/-- C7: with sort choice 1 `displayAllCounts` writes, after its prompt and the table header,
one row for each entry of the mapping, each once, in the iteration order of the mapping, which
is strictly ascending by name and is also the order of the lines of the backup file. A row is
the name, spaces up to a width of 18, the decimal count of that same entry preceded by spaces
up to a width of 5, and a line end. For the mapping built from Bananas (twice) and Apples
(three times) the rows are Apples, Bananas. This holds for every implementation of
`std::sort`. -/
theorem displayAllCounts_by_name (S : StdSort) (counts : CountMap) (stdin : List Str)
    (hwf : WF counts) (h1 : sortChoiceOf (getline stdin).1 = 1) :
    sortedEntries S counts 1 = counts ∧
    displayAllCounts S counts stdin
      = (ascii "Sort by: 1) Name  2) Frequency (highest first)\nYour choice: "
          ++ ascii "\nItem               Count\n--------------------------\n"
          ++ (counts.map
            (fun p => p.1 ++ List.replicate (18 - p.1.length) 32
              ++ (List.replicate (5 - (decimal p.2).length) 32 ++ decimal p.2) ++ ascii "\n")).flatten,
          (getline stdin).2) ∧
    (sortedEntries S counts 1).Pairwise (fun a b => strLt a.1 b.1 = true) ∧
    (∀ old, (writeBackupFile true old counts).1
      = ((sortedEntries S counts 1).map
          (fun p => p.1 ++ [32] ++ decimal p.2 ++ [10])).flatten) ∧
    sortedEntries S (readLoop [ascii "Bananas", ascii "Apples", ascii "Bananas",
        ascii "Apples", ascii "Apples"] []) 1
      = [(ascii "Apples", 3), (ascii "Bananas", 2)] ∧
    displayAllCounts S (readLoop [ascii "Bananas", ascii "Apples", ascii "Bananas",
        ascii "Apples", ascii "Apples"] []) [ascii "1"]
      = (ascii "Sort by: 1) Name  2) Frequency (highest first)\nYour choice: \nItem               Count\n--------------------------\n"
          ++ ascii "Apples                3\nBananas               2\n", []) := by
  obtain ⟨ha, hb, hc, hd, he⟩ := listing_by_name_rows S counts stdin hwf h1
  have hm : readLoop [ascii "Bananas", ascii "Apples", ascii "Bananas",
      ascii "Apples", ascii "Apples"] [] = [(ascii "Apples", 3), (ascii "Bananas", 2)] := by
    decide
  refine ⟨ha, hb, hc, hd, he, ?_⟩
  rw [hm, (listing_by_name_rows S [(ascii "Apples", 3), (ascii "Bananas", 2)]
    [ascii "1"] (by decide) (by decide)).2.1]
  decide

set_option maxRecDepth 100000 in
/-- Witness for C7: the line "1" and insertion sort as `std::sort`. -/
theorem displayAllCounts_by_name_witness :
    displayAllCounts referenceSort
        [(ascii "Apples", 3), (ascii "Apricots", 1), (ascii "Bananas", 12)] [ascii "1"]
      = (ascii "Sort by: 1) Name  2) Frequency (highest first)\nYour choice: \nItem               Count\n--------------------------\n"
          ++ ascii "Apples                3\nApricots              1\nBananas              12\n", []) :=
  ((displayAllCounts_by_name referenceSort
    [(ascii "Apples", 3), (ascii "Apricots", 1), (ascii "Bananas", 12)] [ascii "1"]
    (by decide) (by decide)).2.1).trans (by decide)

/-- C8: a sort-mode line that cannot be read as an `int`, or whose value is not 1 or 2, gives
exactly the output of the line "1"; this covers the empty line, "abc", "3", "0" and "-2".
The frequency order is used only when the line reads as the integer 2. -/
theorem displayAllCounts_invalid_choice (S : StdSort) (counts : CountMap) (line : Str)
    (rest : List Str)
    (hinv : (extractInt line 1).1 = false ∨ (extractInt line 1).2 < 1
      ∨ (extractInt line 1).2 > 2) :
    displayAllCounts S counts (line :: rest) = displayAllCounts S counts (ascii "1" :: rest) ∧
    (∀ l ∈ [[], ascii "abc", ascii "3", ascii "0", ascii "-2"],
      displayAllCounts S counts (l :: rest) = displayAllCounts S counts (ascii "1" :: rest)) ∧
    (∀ l, sortChoiceOf l = 1 ∨ sortChoiceOf l = 2) ∧
    (∀ l, sortChoiceOf l ≠ 1 → extractInt l 1 = (true, 2)) := by
  have hone : sortChoiceOf (ascii "1") = 1 := by decide
  have hkey : ∀ l, ((extractInt l 1).1 = false ∨ (extractInt l 1).2 < 1
      ∨ (extractInt l 1).2 > 2) → sortChoiceOf l = 1 := by
    intro l hl
    simp only [sortChoiceOf]
    rcases hl with hl | hl | hl
    · simp [hl]
    · simp [hl]
    · simp [hl]
  have hsame : ∀ l, sortChoiceOf l = 1 →
      displayAllCounts S counts (l :: rest) = displayAllCounts S counts (ascii "1" :: rest) := by
    intro l hl
    simp only [displayAllCounts, getline, hl, hone]
  refine ⟨hsame line (hkey line hinv), ?_, ?_, ?_⟩
  · intro l hl
    apply hsame
    simp only [List.mem_cons, List.mem_singleton, List.not_mem_nil, or_false] at hl
    rcases hl with h | h | h | h | h <;> subst h <;> decide
  · intro l
    simp only [sortChoiceOf]
    split
    · left; rfl
    · rename_i h
      simp only [Bool.or_eq_true, Bool.not_eq_true', decide_eq_true_eq, not_or, not_lt] at h
      omega
  · intro l hl
    simp only [sortChoiceOf] at hl
    split at hl
    · exact absurd rfl hl
    · rename_i h
      simp only [Bool.or_eq_true, Bool.not_eq_true', decide_eq_true_eq, not_or, not_lt,
        Bool.not_eq_false] at h
      have hv : (extractInt l 1).2 = 2 := by omega
      exact Prod.ext h.1.1 hv

/-- Witness for C8: the line "7x" reads as 7, which is out of range. -/
theorem displayAllCounts_invalid_choice_witness :
    displayAllCounts referenceSort [(ascii "Apples", 3), (ascii "Bananas", 5)]
        [ascii "7x", ascii "4"]
      = displayAllCounts referenceSort [(ascii "Apples", 3), (ascii "Bananas", 5)]
        [ascii "1", ascii "4"] :=
  (displayAllCounts_invalid_choice referenceSort [(ascii "Apples", 3), (ascii "Bananas", 5)]
    (ascii "7x") [ascii "4"] (by decide)).1

/-! ## The histogram -/

/-- C9: `displayHistogram` writes, after its prompt and heading, one line per entry in the
iteration order of the mapping (ascending keys). Each line is the whole name, spaces up to a
width of 12, one space, the bar and the line end; the bar consists of the bar character only,
as many copies as the count. The bar character is `*` for an empty response and the first
byte of the response otherwise. For the response "#" and the mapping Apples 3 the line is
"Apples" padded to 12, a space and "###". -/
theorem displayHistogram_lines (counts : CountMap) (stdin : List Str) (hwf : WF counts) :
    displayHistogram counts stdin
      = (histogramPrompt ++ histogramHeader
          ++ (counts.map (histogramLine (barCharOf (getline stdin).1))).flatten,
          (getline stdin).2) ∧
    (counts.map (histogramLine (barCharOf (getline stdin).1))).length = counts.length ∧
    (counts.map Prod.fst).Pairwise (fun a b => strLt a b = true) ∧
    (∀ bar name count, histogramLine bar (name, count)
      = name ++ List.replicate (12 - name.length) 32 ++ [32]
          ++ List.replicate count.toNat bar ++ [10]) ∧
    (∀ name : Str, (padRight 12 name).length = max 12 name.length ∧ name <+: padRight 12 name) ∧
    (∀ (bar : Byte) (count : Int), 0 ≤ count →
      ((List.replicate count.toNat bar).length : Int) = count) ∧
    barCharOf [] = 42 ∧ (∀ c cs, barCharOf (c :: cs) = c) ∧
    displayHistogram [(ascii "Apples", 3)] [ascii "#"]
      = (histogramPrompt ++ histogramHeader ++ ascii "Apples       ###\n", []) := by
  refine ⟨?_, by simp, WF_keys_sorted _ hwf, ?_, ?_, ?_, rfl, fun _ _ => rfl, by decide⟩
  · simp only [displayHistogram, List.flatMap]
  · intro bar name count
    simp [histogramLine, padRight, ascii]
    rfl
  · intro name
    refine ⟨?_, List.prefix_append _ _⟩
    simp only [padRight, List.length_append, List.length_replicate]
    omega
  · intro bar count hc
    rw [List.length_replicate]
    exact Int.toNat_of_nonneg hc

/-- Witness for C9: the mapping of the specification's examples and an empty response. -/
theorem displayHistogram_lines_witness :
    displayHistogram [(ascii "Apples", 3), (ascii "Apricots", 1), (ascii "Bananas", 2)] [[]]
      = (histogramPrompt ++ histogramHeader
          ++ ascii "Apples       ***\nApricots     *\nBananas      **\n", []) :=
  (displayHistogram_lines [(ascii "Apples", 3), (ascii "Apricots", 1), (ascii "Bananas", 2)]
    [[]] (by decide)).1.trans (by decide)

/-! ## The backup file -/

/-- C10: when the backup file opens, its content after `writeBackupFile` is, whatever it held
before, the concatenation over the entries in iteration order (strictly ascending keys) of
the name, a space, the decimal count and a line end, and nothing else; nothing is written to
`std::cerr`. -/
theorem writeBackupFile_content (counts : CountMap) (old : Str) (hwf : WF counts) :
    writeBackupFile true old counts
      = ((counts.map (fun p => p.1 ++ [32] ++ decimal p.2 ++ [10])).flatten, []) ∧
    (counts.map Prod.fst).Pairwise (fun a b => strLt a b = true) ∧
    (counts.map (fun p => p.1 ++ [32] ++ decimal p.2 ++ [10])).length = counts.length := by
  refine ⟨?_, WF_keys_sorted _ hwf, by simp⟩
  simp only [writeBackupFile, List.flatMap]
  rfl

/-- Witness for C10: a file that held other text is overwritten by two lines. -/
theorem writeBackupFile_content_witness :
    writeBackupFile true (ascii "stale 9\n") [(ascii "Apples", 3), (ascii "Bananas", 12)]
      = (ascii "Apples 3\nBananas 12\n", []) :=
  (writeBackupFile_content [(ascii "Apples", 3), (ascii "Bananas", 12)] (ascii "stale 9\n")
    (by decide)).1.trans (by decide)

/-! ## The backup file after loading -/

/-- C11 (as amended): after loading the lines "Apples", "apples", "Bananas" the backup file,
when it opens, holds three lines, one for each of the three distinct keys, in ascending order
of the literal key strings, each of the form `<key> <count>`: "Apples 1", "Bananas 1",
"apples 1". -/
theorem backup_after_loading_three_keys (inputFileName old : Str) :
    ∃ t, construct inputFileName (some [ascii "Apples", ascii "apples", ascii "Bananas"])
        true old = .ok t ∧
      t.counts = [(ascii "Apples", 1), (ascii "Bananas", 1), (ascii "apples", 1)] ∧
      WF t.counts ∧
      t.backup = (t.counts.map (fun p => p.1 ++ ascii " " ++ decimal p.2 ++ ascii "\n")).flatten ∧
      t.backup = ascii "Apples 1\nBananas 1\napples 1\n" ∧
      t.backup.count 10 = 3 := by
  refine ⟨⟨[(ascii "Apples", 1), (ascii "Bananas", 1), (ascii "apples", 1)],
    ascii "Apples 1\nBananas 1\napples 1\n", []⟩, ?_, rfl, by decide, by decide, rfl, by decide⟩
  have h : readLoop [ascii "Apples", ascii "apples", ascii "Bananas"] []
      = [(ascii "Apples", 1), (ascii "Bananas", 1), (ascii "apples", 1)] := by decide
  have hb : [(ascii "Apples", (1 : Int)), (ascii "Bananas", 1), (ascii "apples", 1)].flatMap
      backupLine = ascii "Apples 1\nBananas 1\napples 1\n" := by decide
  simp only [construct, readDailyLog, writeBackupFile, h, hb]
  rfl

/-- Counterexample for C11 as stated: the three lines are three distinct keys, so the backup
file has three lines and not two. -/
theorem backup_after_loading_counterexample :
    ∃ t, construct inputFile (some [ascii "Apples", ascii "apples", ascii "Bananas"]) true []
        = .ok t ∧
      t.counts.length = 3 ∧ t.backup = ascii "Apples 1\nBananas 1\napples 1\n" ∧
      ¬ (t.backup.count 10 = 2) := by
  refine ⟨⟨[(ascii "Apples", 1), (ascii "Bananas", 1), (ascii "apples", 1)],
    ascii "Apples 1\nBananas 1\napples 1\n", []⟩, ?_, rfl, rfl, by decide⟩
  have h : readLoop [ascii "Apples", ascii "apples", ascii "Bananas"] []
      = [(ascii "Apples", 1), (ascii "Bananas", 1), (ascii "apples", 1)] := by decide
  have hb : [(ascii "Apples", (1 : Int)), (ascii "Bananas", 1), (ascii "apples", 1)].flatMap
      backupLine = ascii "Apples 1\nBananas 1\napples 1\n" := by decide
  simp only [construct, readDailyLog, writeBackupFile, h, hb]
  rfl

/-! ## The menu loop -/

/-- The possible results of reading an `int` from a line: a blank line leaves the variable as
it was; any other line either fails and stores `0` or a bound of `int`, or succeeds, and the
result does not depend on the old value. -/
theorem extractInt_cases (line : Str) (old : Int) :
    (line.dropWhile isspace = [] ∧ extractInt line old = (false, old)) ∨
    (line.dropWhile isspace ≠ [] ∧ extractInt line old = extractInt line 0 ∧
      (extractInt line old = (false, 0) ∨ extractInt line old = (false, INT_MAX) ∨
        extractInt line old = (false, INT_MIN) ∨ ∃ v, extractInt line old = (true, v))) := by
  cases hd : line.dropWhile isspace with
  | nil => left; simp [extractInt, hd]
  | cons c cs =>
    right
    refine ⟨by simp, by simp only [extractInt, hd], ?_⟩
    simp only [extractInt, hd]
    generalize (List.takeWhile isdigit (if c = 45 ∨ c = 43 then cs else c :: cs)) = ds
    by_cases h0 : ds = []
    · simp [h0]
    · simp only [h0, if_false]
      generalize (if c = 45 then -(digitsValue ds : Int) else (digitsValue ds : Int)) = v
      by_cases h1 : v > INT_MAX
      · simp [h1]
      · by_cases h2 : v < INT_MIN
        · simp [h1, h2]
        · simp [h1, h2]

theorem extractInt_eq_four (line : Str) (old : Int) (hold : old ≠ 4)
    (h : (extractInt line old).2 = 4) : extractInt line old = (true, 4) := by
  rcases extractInt_cases line old with ⟨-, he⟩ | ⟨-, -, he | he | he | ⟨v, he⟩⟩
  · rw [he] at h; exact absurd h hold
  · rw [he] at h; simp at h
  · rw [he] at h; simp [INT_MAX] at h
  · rw [he] at h; simp [INT_MIN] at h
  · rw [he] at h ⊢; simp only at h; rw [h]

theorem extractInt_invalid (line : Str) (old : Int) (hinv : InvalidMenuLine line) :
    (extractInt line old).2 ≠ 1 ∧ (extractInt line old).2 ≠ 2 ∧ (extractInt line old).2 ≠ 3
      ∧ (extractInt line old).2 ≠ 4 := by
  obtain ⟨hne, hcase⟩ := hinv
  rcases extractInt_cases line old with ⟨hb, -⟩ | ⟨-, hindep, he⟩
  · exact absurd hb hne
  · rw [← hindep] at hcase
    rcases he with he | he | he | ⟨v, he⟩
    · rw [he]; simp
    · rw [he]; simp [INT_MAX]
    · rw [he]; simp [INT_MIN]
    · rw [he] at hcase ⊢
      simp only at hcase ⊢
      rcases hcase with h | h | h
      · simp at h
      · omega
      · omega

theorem iteration_choice (S : StdSort) (s : RunState) :
    (iteration S s).choice = (extractInt (getline s.stdin).1 s.choice).2 := by
  simp only [iteration]
  split <;> rfl

theorem iteration_counts (S : StdSort) (s : RunState) : (iteration S s).counts = s.counts := by
  simp only [iteration]
  split <;> rfl

theorem iteration_continue (S : StdSort) (s : RunState)
    (h : (extractInt (getline s.stdin).1 s.choice).2 ≠ 4) :
    iteration S s =
      { counts := s.counts, choice := (extractInt (getline s.stdin).1 s.choice).2,
        stdin := (dispatch S s.counts (extractInt (getline s.stdin).1 s.choice).2
          (getline s.stdin).2).2.drop 1,
        stdout := s.stdout ++ menuText
          ++ (dispatch S s.counts (extractInt (getline s.stdin).1 s.choice).2
            (getline s.stdin).2).1 ++ pausePrompt } := by
  simp only [iteration, pause, h, ne_eq, not_false_eq_true, if_true]

theorem iteration_exit (S : StdSort) (s : RunState)
    (h : (extractInt (getline s.stdin).1 s.choice).2 = 4) :
    iteration S s =
      { counts := s.counts, choice := 4, stdin := (getline s.stdin).2,
        stdout := s.stdout ++ menuText ++ farewellText } := by
  simp only [iteration, h, dispatch]
  simp

theorem iteration_stdout_menu (S : StdSort) (s : RunState) :
    ∃ t, (iteration S s).stdout = s.stdout ++ menuText ++ t := by
  simp only [iteration]
  split
  · exact ⟨_, by simp only [List.append_assoc]; rfl⟩
  · exact ⟨_, rfl⟩

theorem runLoop_continue (S : StdSort) (fuel : Nat) (s : RunState)
    (h : (iteration S s).choice ≠ 4) : runLoop S (fuel + 1) s = runLoop S fuel (iteration S s) := by
  simp only [runLoop, h, ne_eq, not_false_eq_true, if_true]

theorem runLoop_exit (S : StdSort) (fuel : Nat) (s : RunState)
    (h : (iteration S s).choice = 4) : runLoop S (fuel + 1) s = some (iteration S s) := by
  simp [runLoop, h]

/-- When the loop ends, it ends in a pass that started with `choice ≠ 4` and whose menu line
was read as the integer 4. -/
theorem runLoop_ends_on_four (S : StdSort) :
    ∀ (fuel : Nat) (s final : RunState), s.choice ≠ 4 → runLoop S fuel s = some final →
      ∃ n, ((iteration S)^[n] s).choice ≠ 4 ∧ iteration S ((iteration S)^[n] s) = final ∧
        extractInt (getline ((iteration S)^[n] s).stdin).1 ((iteration S)^[n] s).choice
          = (true, 4)
  | 0, s, final, _, h => by simp [runLoop] at h
  | fuel + 1, s, final, hs, h => by
    by_cases hc : (iteration S s).choice = 4
    · rw [runLoop_exit S fuel s hc] at h
      refine ⟨0, hs, Option.some.inj h, ?_⟩
      rw [iteration_choice] at hc
      exact extractInt_eq_four _ _ hs hc
    · rw [runLoop_continue S fuel s hc] at h
      obtain ⟨n, h1, h2, h3⟩ := runLoop_ends_on_four S fuel (iteration S s) final hc h
      exact ⟨n + 1, by simpa [Function.iterate_succ_apply] using h1,
        by simpa [Function.iterate_succ_apply] using h2,
        by simpa [Function.iterate_succ_apply] using h3⟩

theorem getline_snd (stdin : List Str) : (getline stdin).2 = stdin.drop 1 := by
  cases stdin <;> rfl

theorem lookupSingleItem_snd (counts : CountMap) (stdin : List Str) :
    (lookupSingleItem counts stdin).2 = stdin.drop 1 := by
  simp only [lookupSingleItem]
  split
  · exact getline_snd stdin
  · split <;> exact getline_snd stdin

theorem displayAllCounts_snd (S : StdSort) (counts : CountMap) (stdin : List Str) :
    (displayAllCounts S counts stdin).2 = stdin.drop 1 := getline_snd stdin

theorem displayHistogram_snd (counts : CountMap) (stdin : List Str) :
    (displayHistogram counts stdin).2 = stdin.drop 1 := getline_snd stdin

theorem dispatch_invalid (S : StdSort) (counts : CountMap) (choice : Int) (stdin : List Str)
    (h : choice ≠ 1 ∧ choice ≠ 2 ∧ choice ≠ 3 ∧ choice ≠ 4) :
    dispatch S counts choice stdin = (invalidChoiceText, stdin) := by
  simp [dispatch, h.1, h.2.1, h.2.2.1, h.2.2.2]

theorem dispatch_snd (S : StdSort) (counts : CountMap) (choice : Int) (stdin : List Str) :
    (dispatch S counts choice stdin).2 = stdin ∨
      (dispatch S counts choice stdin).2 = stdin.drop 1 := by
  simp only [dispatch]
  split
  · right; exact lookupSingleItem_snd _ _
  · split
    · right; exact displayAllCounts_snd _ _ _
    · split
      · right; exact displayHistogram_snd _ _
      · split <;> (left; rfl)

theorem iteration_stdin_subset (S : StdSort) (s : RunState) :
    ∀ l ∈ (iteration S s).stdin, l ∈ s.stdin := by
  intro l hl
  have hd := dispatch_snd S s.counts (extractInt (getline s.stdin).1 s.choice).2
    (getline s.stdin).2
  have hsub : ∀ l ∈ (dispatch S s.counts (extractInt (getline s.stdin).1 s.choice).2
      (getline s.stdin).2).2, l ∈ s.stdin := by
    intro l hl
    rcases hd with hd | hd
    · rw [hd, getline_snd] at hl; exact List.mem_of_mem_drop hl
    · rw [hd, getline_snd] at hl
      exact List.mem_of_mem_drop (List.mem_of_mem_drop hl)
  by_cases hc : (extractInt (getline s.stdin).1 s.choice).2 = 4
  · rw [iteration_exit S s hc] at hl
    rw [getline_snd] at hl; exact List.mem_of_mem_drop hl
  · rw [iteration_continue S s hc] at hl
    exact hsub l (List.mem_of_mem_drop hl)

theorem initialState_choice (counts : CountMap) (stdin : List Str) :
    (initialState counts stdin).choice ≠ 4 := by
  show (0 : Int) ≠ 4
  decide

/-- With only invalid lines on the input the loop never ends, whatever the bound. -/
theorem runLoop_never_ends (S : StdSort) :
    ∀ (fuel : Nat) (s : RunState), s.choice ≠ 4 → (∀ l ∈ s.stdin, InvalidMenuLine l) →
      runLoop S fuel s = none
  | 0, _, _, _ => rfl
  | fuel + 1, s, hs, hall => by
    have hc : (iteration S s).choice ≠ 4 := by
      rw [iteration_choice]
      cases hst : s.stdin with
      | nil =>
        have : extractInt (getline ([] : List Str)).1 s.choice = (false, s.choice) := by
          simp [getline, extractInt]
        rw [this]; exact hs
      | cons l ls =>
        have hl : InvalidMenuLine l := hall l (by rw [hst]; exact List.mem_cons_self _ _)
        exact (extractInt_invalid l s.choice hl).2.2.2
    rw [runLoop_continue S fuel s hc]
    exact runLoop_never_ends S fuel (iteration S s) hc
      (fun l hl => hall l (iteration_stdin_subset S s l hl))

/-- C12: a menu line that is not numeric or is out of range never ends `run`: after such a
pass `choice` is not 4, the loop goes on with the next pass, and that pass starts by writing
the menu again. `run` can only end in a pass whose menu line is read as the integer 4, and
with nothing but invalid lines on the input it never ends. -/
theorem run_continues_on_invalid_line (S : StdSort) (s : RunState)
    (hinv : InvalidMenuLine (getline s.stdin).1) :
    (iteration S s).choice ≠ 4 ∧
    (∀ fuel, runLoop S (fuel + 1) s = runLoop S fuel (iteration S s)) ∧
    (∃ t, (iteration S (iteration S s)).stdout = (iteration S s).stdout ++ menuText ++ t) ∧
    (∀ fuel counts stdin final, run S fuel counts stdin = some final →
      ∃ n, ((iteration S)^[n] (initialState counts stdin)).choice ≠ 4 ∧
        iteration S ((iteration S)^[n] (initialState counts stdin)) = final ∧
        extractInt (getline ((iteration S)^[n] (initialState counts stdin)).stdin).1
          ((iteration S)^[n] (initialState counts stdin)).choice = (true, 4)) ∧
    (∀ counts stdin, (∀ l ∈ stdin, InvalidMenuLine l) →
      ∀ fuel, run S fuel counts stdin = none) := by
  have hc : (iteration S s).choice ≠ 4 := by
    rw [iteration_choice]
    exact (extractInt_invalid _ _ hinv).2.2.2
  refine ⟨hc, fun fuel => runLoop_continue S fuel s hc, iteration_stdout_menu S _, ?_, ?_⟩
  · intro fuel counts stdin final h
    exact runLoop_ends_on_four S fuel (initialState counts stdin) final (initialState_choice counts stdin) h
  · intro counts stdin hall fuel
    exact runLoop_never_ends S fuel (initialState counts stdin) (initialState_choice counts stdin) hall

/-- Witness for C12: the line "abc" in the first pass. -/
theorem run_continues_on_invalid_line_witness :
    (iteration referenceSort
      (initialState [(ascii "Apples", 3)] [ascii "abc", ascii "9", ascii "4"])).choice ≠ 4 :=
  (run_continues_on_invalid_line referenceSort
    (initialState [(ascii "Apples", 3)] [ascii "abc", ascii "9", ascii "4"]) (by decide)).1

set_option maxRecDepth 100000 in
/-- C13 at a failing input: with the mapping Apples 3 and the input lines "1", "apples", "",
"", "pears", "", "4", the first pass looks up "apples" and the pause discards an empty line.
The second pass reads an empty menu line: `ss >> choice` fails before any conversion and
leaves `choice` at 1, so `lookupSingleItem` runs again (it reads "pears") and the message for
an invalid choice is not written. An empty menu line in the first pass, where `choice` is
still 0, does get that message. -/
theorem run_empty_line_repeats_lookup :
    (iteration referenceSort (initialState [(ascii "Apples", 3)]
      [ascii "1", ascii "apples", [], [], ascii "pears", [], ascii "4"]))
      = { counts := [(ascii "Apples", 3)], choice := 1,
          stdin := [[], ascii "pears", [], ascii "4"],
          stdout := menuText ++ lookupPrompt ++ printFound (ascii "Apples") 3 ++ pausePrompt } ∧
    extractInt [] 1 = (false, 1) ∧
    (iteration referenceSort
      { counts := [(ascii "Apples", 3)], choice := 1,
        stdin := [[], ascii "pears", [], ascii "4"], stdout := [] })
      = { counts := [(ascii "Apples", 3)], choice := 1, stdin := [ascii "4"],
          stdout := menuText ++ lookupPrompt ++ noMatchText (ascii "pears") ++ pausePrompt } ∧
    (iteration referenceSort
      { counts := [(ascii "Apples", 3)], choice := 1,
        stdin := [[], ascii "pears", [], ascii "4"], stdout := [] }).stdout
      ≠ menuText ++ invalidChoiceText ++ pausePrompt ∧
    (iteration referenceSort (initialState [(ascii "Apples", 3)] [[], ascii "4"])).stdout
      = menuText ++ invalidChoiceText ++ pausePrompt := by
  refine ⟨by decide, by decide, by decide, by decide, by decide⟩

/-- C14 (as amended): for every invalid menu line the pass writes the menu, the message for an
invalid choice and the prompt of `pause`, and `pause` consumes and discards one input line
after the menu line; the loop goes on, the menu is written again, and the line after the
discarded one is the next to be read as a menu choice. -/
theorem invalid_choice_then_pause (S : StdSort) (s : RunState)
    (hinv : InvalidMenuLine (getline s.stdin).1) :
    iteration S s =
      { counts := s.counts, choice := (extractInt (getline s.stdin).1 s.choice).2,
        stdin := s.stdin.drop 2,
        stdout := s.stdout ++ menuText ++ invalidChoiceText ++ pausePrompt } ∧
    (iteration S s).choice ≠ 4 ∧
    (∃ t, (iteration S (iteration S s)).stdout
      = s.stdout ++ menuText ++ invalidChoiceText ++ pausePrompt ++ menuText ++ t) ∧
    (iteration S (iteration S s)).choice
      = (extractInt (getline (s.stdin.drop 2)).1 (iteration S s).choice).2 := by
  have hv := extractInt_invalid (getline s.stdin).1 s.choice hinv
  have hit : iteration S s =
      { counts := s.counts, choice := (extractInt (getline s.stdin).1 s.choice).2,
        stdin := s.stdin.drop 2,
        stdout := s.stdout ++ menuText ++ invalidChoiceText ++ pausePrompt } := by
    rw [iteration_continue S s hv.2.2.2, dispatch_invalid S _ _ _ hv, getline_snd]
    simp only [List.drop_drop]
  refine ⟨hit, ?_, ?_, ?_⟩
  · rw [iteration_choice]; exact hv.2.2.2
  · obtain ⟨t, ht⟩ := iteration_stdout_menu S (iteration S s)
    refine ⟨t, ?_⟩
    rw [ht, hit]
  · rw [iteration_choice (S := S) (s := iteration S s)]
    rw [hit]

/-- Witness for C14: the line "abc" followed by two more lines. -/
theorem invalid_choice_then_pause_witness :
    (iteration referenceSort
      (initialState [(ascii "Apples", 3)] [ascii "abc", ascii "1", ascii "4"])).stdin
      = [ascii "4"] :=
  (congrArg RunState.stdin (invalid_choice_then_pause referenceSort
    (initialState [(ascii "Apples", 3)] [ascii "abc", ascii "1", ascii "4"])
    (by decide)).1).trans rfl

set_option maxRecDepth 100000 in
/-- Counterexample for C14 as stated: with the input lines "abc", "4", "4" the invalid line
"abc" is followed by a pause that consumes and discards the first "4"; the input left for the
next menu prompt is the second "4" alone, the loop is still running after the first two lines
and ends only with the third. -/
theorem invalid_choice_counterexample :
    InvalidMenuLine (ascii "abc") ∧
    (iteration referenceSort
      (initialState [(ascii "Apples", 3)] [ascii "abc", ascii "4", ascii "4"])).stdin
      = [ascii "4"] ∧
    ¬ ((iteration referenceSort
      (initialState [(ascii "Apples", 3)] [ascii "abc", ascii "4", ascii "4"])).stdin
      = [ascii "4", ascii "4"]) ∧
    (iteration referenceSort
      (initialState [(ascii "Apples", 3)] [ascii "abc", ascii "4", ascii "4"])).stdout
      = menuText ++ invalidChoiceText ++ pausePrompt ∧
    run referenceSort 1 [(ascii "Apples", 3)] [ascii "abc", ascii "4", ascii "4"] = none ∧
    (run referenceSort 2 [(ascii "Apples", 3)] [ascii "abc", ascii "4", ascii "4"]).map
      (fun s => s.stdin) = some [] := by
  refine ⟨by decide, by decide, by decide, by decide, by decide, by decide⟩

theorem dispatch_one (S : StdSort) (counts : CountMap) (stdin : List Str) :
    dispatch S counts 1 stdin = lookupSingleItem counts stdin := by
  simp [dispatch]

theorem find_last_not_of_none (s : Str) (h : find_last_not_of s trimSet = none) :
    ∀ c ∈ s, isTrimChar c = true := by
  induction s with
  | nil => intro c hc; exact absurd hc (List.not_mem_nil c)
  | cons x xs ih =>
    simp only [find_last_not_of] at h
    split at h
    · exact absurd h (by simp)
    · rename_i hxs
      split at h
      · rename_i hx
        intro c hc
        rcases List.mem_cons.mp hc with hc | hc
        · rw [hc]; exact hx
        · exact ih hxs c hc
      · exact absurd h (by simp)

theorem find_first_not_of_none (s : Str) (h : ∀ c ∈ s, isTrimChar c = true) :
    find_first_not_of s trimSet = none := by
  induction s with
  | nil => rfl
  | cons x xs ih =>
    have hx : trimSet.contains x = true := h x (List.mem_cons_self _ _)
    simp only [find_first_not_of, hx, if_true, ih (fun c hc => h c (List.mem_cons_of_mem _ hc))]
    rfl

theorem find_last_not_of_some_ne_nil (s : Str) (e : Nat)
    (h : find_last_not_of s trimSet = some e) : s.take (e + 1) ≠ [] := by
  cases s with
  | nil => simp [find_last_not_of] at h
  | cons x xs => simp

theorem trim_cons_of_trimChar (c : Byte) (cs : Str) (hc : isTrimChar c = true) :
    trim (c :: cs) = trim cs := by
  have hc' : trimSet.contains c = true := hc
  have hm : c ∈ trimSet := by simpa using hc'
  cases hf : find_first_not_of cs trimSet with
  | none => simp [trim, find_first_not_of, hm, hf]
  | some i =>
    cases hl : find_last_not_of cs trimSet with
    | none =>
      have := find_first_not_of_none cs (find_last_not_of_none cs hl)
      rw [hf] at this
      exact absurd this (by simp)
    | some j =>
      simp only [trim, find_first_not_of, find_last_not_of, hc', hf, hl, if_true,
        Option.map_some', substr, List.drop_succ_cons]
      congr 1
      omega

theorem trim_cons_of_not_trimChar (c : Byte) (cs : Str) (hc : isTrimChar c = false) :
    trim (c :: cs) = c :: rstrip cs := by
  have hc' : trimSet.contains c = false := hc
  have hm : c ∉ trimSet := by simpa using hc'
  cases hl : find_last_not_of cs trimSet with
  | none =>
    simp [trim, find_first_not_of, find_last_not_of, hm, hl, rstrip, substr]
  | some j =>
    simp [trim, find_first_not_of, find_last_not_of, hm, hl, rstrip, substr]

theorem rstrip_cons (c : Byte) (cs : Str) :
    rstrip (c :: cs) =
      if rstrip cs = [] then (if isTrimChar c = true then [] else [c]) else c :: rstrip cs := by
  have hdef : isTrimChar c = trimSet.contains c := rfl
  cases hl : find_last_not_of cs trimSet with
  | none =>
    have hr : rstrip cs = [] := by simp [rstrip, hl]
    rw [hr]
    by_cases hc : c ∈ trimSet
    · simp [rstrip, find_last_not_of, hl, hc, hdef]
    · simp [rstrip, find_last_not_of, hl, hc, hdef]
  | some j =>
    have hr : rstrip cs = cs.take (j + 1) := by simp [rstrip, hl]
    have hne : rstrip cs ≠ [] := by rw [hr]; exact find_last_not_of_some_ne_nil cs j hl
    rw [if_neg hne, hr]
    simp [rstrip, find_last_not_of, hl]

theorem dropWhile_of_head_not (p : Byte → Bool) (l : Str) (a : Byte) (h : l.head? = some a)
    (ha : p a = false) : l.dropWhile p = l := by
  cases l with
  | nil => rfl
  | cons x xs =>
    simp only [List.head?_cons, Option.some.injEq] at h
    subst h
    exact List.dropWhile_cons_of_neg (by simp [ha])

theorem rstrip_eq (s : Str) : rstrip s = (s.reverse.dropWhile isTrimChar).reverse := by
  induction s with
  | nil => rfl
  | cons c cs ih =>
    rw [rstrip_cons, List.reverse_cons, List.dropWhile_append]
    have hrev : cs.reverse.dropWhile isTrimChar = (rstrip cs).reverse := by
      rw [ih, List.reverse_reverse]
    rw [hrev]
    by_cases hr : rstrip cs = []
    · rw [hr]
      by_cases hc : isTrimChar c = true
      · simp [hc]
      · simp [hc]
    · have : (rstrip cs).reverse.isEmpty = false := by
        cases hx : (rstrip cs).reverse with
        | nil => exact absurd (List.reverse_eq_nil_iff.mp hx) hr
        | cons _ _ => rfl
      simp [hr, this]

/-- The source's `trim`, computed with positions, removes the longest prefix and the longest
suffix of characters of the set. -/
theorem trim_eq_trimSpec (s : Str) : trim s = trimSpec s := by
  induction s with
  | nil => rfl
  | cons c cs ih =>
    by_cases hc : isTrimChar c = true
    · rw [trim_cons_of_trimChar c cs hc, ih]
      simp only [trimSpec, List.dropWhile_cons_of_pos hc]
    · have hc' : isTrimChar c = false := by simpa using hc
      rw [trim_cons_of_not_trimChar c cs hc']
      simp only [trimSpec, List.dropWhile_cons_of_neg hc]
      rw [← rstrip_eq, rstrip_cons]
      by_cases hr : rstrip cs = []
      · simp [hr, hc']
      · simp [hr]

theorem trimSpec_decompose (s : Str) :
    s = s.takeWhile isTrimChar ++ trimSpec s
      ++ ((s.dropWhile isTrimChar).reverse.takeWhile isTrimChar).reverse := by
  have h1 := List.takeWhile_append_dropWhile isTrimChar s
  have h2 := List.takeWhile_append_dropWhile isTrimChar (s.dropWhile isTrimChar).reverse
  have h3 : s.dropWhile isTrimChar = trimSpec s
      ++ ((s.dropWhile isTrimChar).reverse.takeWhile isTrimChar).reverse := by
    have := congrArg List.reverse h2
    rw [List.reverse_append, List.reverse_reverse] at this
    rw [trimSpec]; exact this.symm
  rw [List.append_assoc, ← h3, h1]

theorem trimSpec_head (s : Str) (a : Byte) (h : (trimSpec s).head? = some a) :
    isTrimChar a = false := by
  have hne : trimSpec s ≠ [] := by
    intro e; rw [e] at h; simp at h
  have h3 : s.dropWhile isTrimChar = trimSpec s
      ++ ((s.dropWhile isTrimChar).reverse.takeWhile isTrimChar).reverse := by
    have h2 := List.takeWhile_append_dropWhile isTrimChar (s.dropWhile isTrimChar).reverse
    have := congrArg List.reverse h2
    rw [List.reverse_append, List.reverse_reverse] at this
    rw [trimSpec]; exact this.symm
  have h4 : (s.dropWhile isTrimChar).head? = some a := by
    rw [h3, List.head?_append_of_ne_nil _ hne]; exact h
  have h5 := List.head?_dropWhile_not isTrimChar s
  rw [h4] at h5
  exact h5

theorem trimSpec_last (s : Str) (b : Byte) (h : (trimSpec s).getLast? = some b) :
    isTrimChar b = false := by
  rw [trimSpec, List.getLast?_reverse] at h
  have h5 := List.head?_dropWhile_not isTrimChar (s.dropWhile isTrimChar).reverse
  rw [h] at h5
  exact h5

theorem trimSpec_of_trimmed (t : Str) (a b : Byte) (ha : t.head? = some a)
    (hb : t.getLast? = some b) (hna : isTrimChar a = false) (hnb : isTrimChar b = false) :
    trimSpec t = t := by
  rw [trimSpec, dropWhile_of_head_not isTrimChar t a ha hna,
    dropWhile_of_head_not isTrimChar t.reverse b (by rw [List.head?_reverse]; exact hb) hnb,
    List.reverse_reverse]

theorem trimSpec_idempotent (s : Str) : trimSpec (trimSpec s) = trimSpec s := by
  cases hh : (trimSpec s).head? with
  | none =>
    have : trimSpec s = [] := by
      cases ht : trimSpec s with
      | nil => rfl
      | cons x xs => rw [ht] at hh; simp at hh
    rw [this]; rfl
  | some a =>
    cases hl : (trimSpec s).getLast? with
    | none =>
      have : trimSpec s = [] := List.getLast?_eq_none_iff.mp hl
      rw [this]; rfl
    | some b =>
      exact trimSpec_of_trimmed _ a b hh hl (trimSpec_head s a hh) (trimSpec_last s b hl)

theorem isTrimChar_iff (c : Byte) :
    isTrimChar c = true ↔ c = 32 ∨ c = 9 ∨ c = 10 ∨ c = 13 := by
  simp [isTrimChar, trimSet]

theorem trim_idempotent (s : Str) : trim (trim s) = trim s := by
  rw [trim_eq_trimSpec (trim s), trim_eq_trimSpec s]
  exact trimSpec_idempotent s

/-- C19: `trim s` is `s` without its longest prefix and its longest suffix of characters from
space, tab, line feed and carriage return. It is a contiguous part of `s` with only such
characters before and after it, it is empty exactly when `s` holds nothing else, otherwise it
begins and ends with a character outside the set, what lies between is kept as it is, and
trimming twice is the same as trimming once. -/
theorem trim_properties (s : Str) :
    trim s = trimSpec s ∧
    (∃ pre post, s = pre ++ trim s ++ post ∧ pre = s.takeWhile isTrimChar ∧
      (∀ c ∈ pre, isTrimChar c = true) ∧ (∀ c ∈ post, isTrimChar c = true)) ∧
    trim s <:+: s ∧
    (trim s = [] ↔ ∀ c ∈ s, isTrimChar c = true) ∧
    (trim s = [] ∨ ∃ a b, (trim s).head? = some a ∧ (trim s).getLast? = some b ∧
      isTrimChar a = false ∧ isTrimChar b = false) ∧
    trim (trim s) = trim s ∧
    (∀ c, isTrimChar c = true ↔ c = 32 ∨ c = 9 ∨ c = 10 ∨ c = 13) ∧
    trim (ascii " \t a \t b\r\n") = ascii "a \t b" := by
  have hdec := trimSpec_decompose s
  rw [← trim_eq_trimSpec] at hdec
  have hpre : ∀ c ∈ s.takeWhile isTrimChar, isTrimChar c = true :=
    fun c hc => List.mem_takeWhile_imp hc
  have hpost : ∀ c ∈ ((s.dropWhile isTrimChar).reverse.takeWhile isTrimChar).reverse,
      isTrimChar c = true :=
    fun c hc => List.mem_takeWhile_imp (List.mem_reverse.mp hc)
  refine ⟨trim_eq_trimSpec s, ⟨_, _, hdec, rfl, hpre, hpost⟩, ⟨_, _, hdec.symm⟩, ?_, ?_, ?_,
    isTrimChar_iff, by decide⟩
  · constructor
    · intro he c hc
      rw [hdec, he] at hc
      simp only [List.append_nil, List.mem_append] at hc
      rcases hc with hc | hc
      · exact hpre c hc
      · exact hpost c hc
    · intro hall
      rw [trim_eq_trimSpec, trimSpec, List.dropWhile_eq_nil_iff.mpr hall]
      rfl
  · cases hh : (trim s).head? with
    | none =>
      left
      cases ht : trim s with
      | nil => rfl
      | cons x xs => rw [ht] at hh; simp at hh
    | some a =>
      cases hl : (trim s).getLast? with
      | none => left; exact List.getLast?_eq_none_iff.mp hl
      | some b =>
        right
        refine ⟨a, b, rfl, rfl, ?_, ?_⟩
        · exact trimSpec_head s a (by rw [← trim_eq_trimSpec]; exact hh)
        · exact trimSpec_last s b (by rw [← trim_eq_trimSpec]; exact hl)
  · exact trim_idempotent s

/-! ## The invariant of the loader -/

/-- The invariant of the keys while the log is read: not empty and equal to their own trim. -/
theorem readLoop_invariant (lines : List Str) (counts : CountMap)
    (h : ∀ p ∈ counts, p.1 ≠ [] ∧ trim p.1 = p.1) :
    ∀ p ∈ readLoop lines counts, p.1 ≠ [] ∧ trim p.1 = p.1 := by
  induction lines generalizing counts with
  | nil => exact h
  | cons line rest ih =>
    simp only [readLoop]
    by_cases he : trim line = []
    · simp only [he, List.isEmpty_nil, if_true]
      exact ih counts h
    · simp only [isEmpty_eq_false_of_ne_nil _ he, Bool.false_eq_true, if_false]
      apply ih
      intro p hp
      rcases mem_increment counts (trim line) p hp with hk | hm
      · refine ⟨by rw [hk]; exact he, ?_⟩
        rw [hk]
        exact trim_idempotent line
      · exact h p hm

theorem readLoop_append (l1 l2 : List Str) (counts : CountMap) :
    readLoop (l1 ++ l2) counts = readLoop l2 (readLoop l1 counts) := by
  induction l1 generalizing counts with
  | nil => rfl
  | cons line rest ih =>
    simp only [List.cons_append, readLoop]
    split
    · exact ih counts
    · exact ih _

/-- The entries after the reading loop from the empty mapping: keys that are not empty, equal
their own trim and have no trim character at either end; a count of at least 1 when the key
occurred at most `INT_MAX` times. -/
theorem readLoop_entries (ls : List Str) :
    ∀ p ∈ readLoop ls [],
      (((ls.countP (fun l => decide (trim l = p.1)) : Nat) : Int) ≤ INT_MAX → 1 ≤ p.2) ∧
      p.1 ≠ [] ∧ trim p.1 = p.1 ∧
      (∀ a, p.1.head? = some a → isTrimChar a = false) ∧
      (∀ b, p.1.getLast? = some b → isTrimChar b = false) := by
  intro p hp
  obtain ⟨h2, h3⟩ := readLoop_invariant ls []
    (fun q hq => absurd hq (List.not_mem_nil q)) p hp
  obtain ⟨hwf, -, hcount⟩ :=
    readLoop_spec ls [] List.Pairwise.nil (fun q hq => absurd hq (List.not_mem_nil q))
  refine ⟨?_, h2, h3, ?_, ?_⟩
  · intro hb
    have h1 : getCount (readLoop ls []) p.1 = p.2 := getCount_of_mem _ hwf _ _ hp
    rw [hcount p.1] at h1
    simp only [h2, if_false, getCount, zero_add] at h1
    have hmem : p.1 ∈ (readLoop ls []).map Prod.fst := List.mem_map.mpr ⟨p, hp, rfl⟩
    rw [keys_readLoop] at hmem
    have hin : p.1 ∈ ls.map trim := (hmem.resolve_left (by simp)).2
    obtain ⟨l, hl, hlk⟩ := List.mem_map.mp hin
    have hpos : 0 < ls.countP (fun l => decide (trim l = p.1)) :=
      List.countP_pos_iff.mpr ⟨l, hl, by simpa using hlk⟩
    rw [wrapInt_of_inRange _ (by simp only [INT_MIN]; omega) hb] at h1
    omega
  · intro a ha
    apply trimSpec_head p.1 a
    rw [← trim_eq_trimSpec, h3]; exact ha
  · intro b hb
    apply trimSpec_last p.1 b
    rw [← trim_eq_trimSpec, h3]; exact hb

/-- C16 (as amended): after any number `n` of processed lines, and so also at the end, every
key of the mapping is not empty and equals its own trim, with no space, tab, carriage return
or line feed at either end, and every entry whose key occurred at most `INT_MAX` = 2147483647
times among the processed lines has a count of at least 1. -/
theorem readDailyLog_invariant (inputFileName : Str) (lines : List Str) (n : Nat) :
    (∀ p ∈ readLoop (lines.take n) [],
      ((((lines.take n).countP (fun l => decide (trim l = p.1)) : Nat) : Int) ≤ INT_MAX →
        1 ≤ p.2) ∧
      p.1 ≠ [] ∧ trim p.1 = p.1 ∧
      (∀ a, p.1.head? = some a → isTrimChar a = false) ∧
      (∀ b, p.1.getLast? = some b → isTrimChar b = false)) ∧
    readLoop lines [] = readLoop (lines.drop n) (readLoop (lines.take n) []) ∧
    readDailyLog inputFileName (some lines) [] = .ok (readLoop lines []) ∧
    (∀ p ∈ readLoop lines [],
      (((lines.countP (fun l => decide (trim l = p.1)) : Nat) : Int) ≤ INT_MAX → 1 ≤ p.2) ∧
      p.1 ≠ [] ∧ trim p.1 = p.1 ∧
      (∀ a, p.1.head? = some a → isTrimChar a = false) ∧
      (∀ b, p.1.getLast? = some b → isTrimChar b = false)) := by
  refine ⟨readLoop_entries _, ?_, rfl, readLoop_entries lines⟩
  rw [← readLoop_append, List.take_append_drop]

/-- Witness for C16: the entry "b" after three of four lines. -/
theorem readDailyLog_invariant_witness : (1 : Int) ≤ ((ascii "b", (2 : Int)) : Entry).2 :=
  ((readDailyLog_invariant (ascii "log.txt") [ascii "b", ascii " a", ascii "b ", ascii "c"]
    3).1 (ascii "b", 2) (by decide)).1 (by decide)

/-- Counterexample for C16 as stated: after 2147483648 processed lines "a" the count of the
entry "a" has wrapped to -2147483648, which is not at least 1. -/
theorem readDailyLog_invariant_counterexample :
    readLoop (List.replicate 2147483648 (ascii "a")) [] = [(ascii "a", -2147483648)] ∧
    readDailyLog (ascii "log.txt") (some (List.replicate 2147483648 (ascii "a"))) []
      = .ok [(ascii "a", -2147483648)] ∧
    ¬ (∀ p ∈ ([(ascii "a", -2147483648)] : CountMap), 1 ≤ p.2) := by
  have h := readLoop_replicate (ascii "a") (by decide) 2147483647
  have ht : trim (ascii "a") = ascii "a" := by decide
  have hw : wrapInt ((2147483647 : Nat) + 1) = -2147483648 := by decide
  rw [ht, hw] at h
  refine ⟨h, congrArg Except.ok h, by decide⟩

/-! ## The mapping during the session -/

theorem iterate_counts (S : StdSort) (n : Nat) (s : RunState) :
    ((iteration S)^[n] s).counts = s.counts := by
  induction n generalizing s with
  | zero => rfl
  | succ n ih => rw [Function.iterate_succ_apply, ih, iteration_counts]

theorem runLoop_counts (S : StdSort) :
    ∀ (fuel : Nat) (s final : RunState), runLoop S fuel s = some final →
      final.counts = s.counts
  | 0, s, final, h => by simp [runLoop] at h
  | fuel + 1, s, final, h => by
    by_cases hc : (iteration S s).choice = 4
    · rw [runLoop_exit S fuel s hc] at h
      rw [← Option.some.inj h, iteration_counts]
    · rw [runLoop_continue S fuel s hc] at h
      rw [runLoop_counts S fuel (iteration S s) final h, iteration_counts]

set_option maxRecDepth 100000 in
/-- C17: the session never changes the count mapping. Every pass of the loop of `run`, with
whatever operation it performs on whatever input, leaves `counts` as it was, so after any
number of passes and at the end of `run` the mapping is the one the loader produced. Looking
up the absent name "Pears" writes the no-match text and adds no entry. -/
theorem run_keeps_counts (S : StdSort) :
    (∀ s, (iteration S s).counts = s.counts) ∧
    (∀ n counts stdin, ((iteration S)^[n] (initialState counts stdin)).counts = counts) ∧
    (∀ fuel counts stdin final, run S fuel counts stdin = some final → final.counts = counts) ∧
    (∀ fuel name lines opens old stdin t final,
      construct name (some lines) opens old = .ok t → run S fuel t.counts stdin = some final →
      final.counts = readLoop lines []) ∧
    run S 2 [(ascii "Apples", 3)] [ascii "1", ascii "Pears", [], ascii "4"]
      = some { counts := [(ascii "Apples", 3)], choice := 4, stdin := [],
               stdout := menuText ++ lookupPrompt ++ noMatchText (ascii "Pears") ++ pausePrompt
                 ++ menuText ++ farewellText } := by
  refine ⟨iteration_counts S, ?_, ?_, ?_, ?_⟩
  · intro n counts stdin
    rw [iterate_counts]; rfl
  · intro fuel counts stdin final h
    rw [runLoop_counts S fuel _ final h]; rfl
  · intro fuel name lines opens old stdin t final hc h
    rw [runLoop_counts S fuel _ final h]
    simp only [construct, readDailyLog] at hc
    cases hc
    rfl
  · have h1 : (extractInt (getline (initialState [(ascii "Apples", 3)]
        [ascii "1", ascii "Pears", [], ascii "4"]).stdin).1
        (initialState [(ascii "Apples", 3)]
          [ascii "1", ascii "Pears", [], ascii "4"]).choice).2 = 1 := by decide
    have hi1 : iteration S (initialState [(ascii "Apples", 3)]
        [ascii "1", ascii "Pears", [], ascii "4"])
        = { counts := [(ascii "Apples", 3)], choice := 1, stdin := [ascii "4"],
            stdout := menuText ++ lookupPrompt ++ noMatchText (ascii "Pears")
              ++ pausePrompt } := by
      rw [iteration_continue S _ (by rw [h1]; decide), h1, dispatch_one]
      decide
    have hi2 : iteration S
          { counts := [(ascii "Apples", 3)], choice := 1,
            stdin := [ascii "4"],
            stdout := menuText ++ lookupPrompt ++ noMatchText (ascii "Pears") ++ pausePrompt }
        = { counts := [(ascii "Apples", 3)], choice := 4, stdin := [],
            stdout := menuText ++ lookupPrompt ++ noMatchText (ascii "Pears") ++ pausePrompt
              ++ menuText ++ farewellText } := by
      rw [iteration_exit S _ (by decide)]
      rfl
    rw [run, runLoop_continue S 1 _ (by rw [hi1]; decide), hi1,
      runLoop_exit S 0 _ (by rw [hi2]), hi2]

/-! ## Start of the program -/

/-- C18: when the input file cannot be opened the constructor ends the program with the
failure status, which is not zero, after writing the diagnostic to `std::cerr`: nothing is
written to `std::cout`, no input line is read, the backup file keeps its old content, and this
is the outcome whatever bound is put on the menu loop, which is never entered. When only the
backup file cannot be opened, a warning is written, the mapping is the one loaded from the
log, the same as when the backup opens, and the program goes on to `run`, whose first output
is the menu. -/
theorem input_file_failure_is_fatal (S : StdSort) (fuel : Nat) (backupOpens : Bool)
    (oldBackup : Str) (stdin : List Str) (lines : List Str) :
    main S fuel none backupOpens oldBackup stdin
      = some { status := EXIT_FAILURE, stdout := [],
               stderr := ascii "Error: could not open " ++ inputFile ++ ascii ".\n",
               backup := oldBackup, stdin := stdin } ∧
    EXIT_FAILURE ≠ 0 ∧
    (∀ name, construct name none backupOpens oldBackup
      = .error ⟨ascii "Error: could not open " ++ name ++ ascii ".\n", EXIT_FAILURE⟩) ∧
    (∀ name, construct name (some lines) false oldBackup
      = .ok { counts := readLoop lines [], backup := oldBackup,
              stderr := ascii "Warning: could not write backup file.\n" }) ∧
    (∀ name, construct name (some lines) true oldBackup
      = .ok { counts := readLoop lines [], backup := (readLoop lines []).flatMap backupLine,
              stderr := [] }) ∧
    main S fuel (some lines) false oldBackup stdin
      = (run S fuel (readLoop lines []) stdin).map (fun s =>
          { status := 0, stdout := s.stdout,
            stderr := ascii "Warning: could not write backup file.\n",
            backup := oldBackup, stdin := s.stdin }) ∧
    (∃ t, (iteration S (initialState (readLoop lines []) stdin)).stdout = menuText ++ t) := by
  refine ⟨rfl, by decide, fun _ => rfl, fun _ => rfl, fun _ => rfl, ?_, ?_⟩
  · simp only [main, construct, readDailyLog, writeBackupFile]
    cases run S fuel (readLoop lines []) stdin <;> rfl
  · obtain ⟨t, ht⟩ := iteration_stdout_menu S (initialState (readLoop lines []) stdin)
    exact ⟨t, by rw [ht]; rfl⟩

/-! ## Lookup with a blank query -/

theorem trim_eq_nil (s : Str) (h : ∀ c ∈ s, isTrimChar c = true) : trim s = [] := by
  rw [trim_eq_trimSpec, trimSpec, List.dropWhile_eq_nil_iff.mpr h]
  rfl

theorem toLower_length (s : Str) : (toLower s).length = s.length := by
  simp [toLower]

theorem suggestions_nil (counts : CountMap) : suggestions counts [] = counts.map Prod.fst := by
  simp [suggestions, List.isPrefixOf]

/-- The answer to a blank query in terms of `suggestionText`, `noMatchText` and `printFound`. -/
theorem blank_query_output_text (counts : CountMap) (stdin : List Str) (hwf : WF counts)
    (hne : counts ≠ []) (hkeys : ∀ p ∈ counts, p.1 ≠ [])
    (hq : ∀ c ∈ (getline stdin).1, c = 32 ∨ c = 9 ∨ c = 13) :
    counts.find? (fun p => toLower p.1 == toLower (trim (getline stdin).1)) = none ∧
    suggestions counts (toLower (trim (getline stdin).1)) = counts.map Prod.fst ∧
    (counts.map Prod.fst).Pairwise (fun a b => strLt a b = true) ∧
    lookupSingleItem counts stdin
      = (lookupPrompt ++ suggestionText [] (counts.map Prod.fst), (getline stdin).2) ∧
    (∀ input, (lookupSingleItem counts stdin).1 ≠ lookupPrompt ++ noMatchText input) ∧
    (∀ k c, (lookupSingleItem counts stdin).1 ≠ lookupPrompt ++ printFound k c) ∧
    (∀ (counts1 : CountMap) (stdin1 : List Str),
      (∀ p ∈ counts1, toLower p.1 ≠ toLower (trim (getline stdin1).1)) →
      ∀ k ∈ suggestions counts1 (toLower (trim (getline stdin1).1)),
        (trim (getline stdin1).1).length < k.length) := by
  have htrim : trim (getline stdin).1 = [] := by
    apply trim_eq_nil
    intro c hc
    rw [isTrimChar_iff]
    rcases hq c hc with h | h | h
    · left; exact h
    · right; left; exact h
    · right; right; right; exact h
  have hlow : toLower (trim (getline stdin).1) = [] := by rw [htrim]; rfl
  have hnone : counts.find? (fun p => toLower p.1 == toLower (trim (getline stdin).1))
      = none := by
    rw [List.find?_eq_none, hlow]
    intro p hp
    have := hkeys p hp
    simp only [beq_iff_eq]
    intro he
    have hl := toLower_length p.1
    rw [he] at hl
    exact this (List.length_eq_zero.mp hl.symm)
  have hsugg : suggestions counts (toLower (trim (getline stdin).1)) = counts.map Prod.fst := by
    rw [hlow]; exact suggestions_nil counts
  have hnonempty : (counts.map Prod.fst).isEmpty = false := by
    cases counts with
    | nil => exact absurd rfl hne
    | cons _ _ => rfl
  have hout : lookupSingleItem counts stdin
      = (lookupPrompt ++ suggestionText [] (counts.map Prod.fst), (getline stdin).2) := by
    simp only [lookupSingleItem, hnone, hsugg, hnonempty, Bool.not_false, if_true]
    rw [htrim]
  refine ⟨hnone, hsugg, WF_keys_sorted _ hwf, hout, ?_, ?_, ?_⟩
  · intro input h
    rw [hout] at h
    exact suggestionText_ne_noMatchText _ _ _ (List.append_cancel_left h)
  · intro k c h
    rw [hout] at h
    exact printFound_ne_suggestionText _ _ _ _ (List.append_cancel_left h).symm
  · intro counts1 stdin1 hno k hk
    obtain ⟨hmem, hpre⟩ := (mem_suggestions counts1 _ k).mp hk
    obtain ⟨p, hp, hpk⟩ := List.mem_map.mp hmem
    have hle := hpre.length_le
    rw [toLower_length, toLower_length] at hle
    rcases Nat.lt_or_ge (trim (getline stdin1).1).length k.length with h | h
    · exact h
    · have heq : (toLower (trim (getline stdin1).1)).length = (toLower k).length := by
        rw [toLower_length, toLower_length]; omega
      have := hpre.eq_of_length heq
      rw [← hpk] at this
      exact absurd this.symm (hno p hp)

/-- C20: for a non-empty mapping whose keys are all non-empty, a query that is empty or made
of spaces, tabs and carriage returns only finds no exact match and gives neither the found
line nor the no-match line: the output is the prompt, the line
"I couldn’t find "" exactly. Did you mean:" and one line "  - <key>" for every key of the
mapping in iteration order (ascending). And for any mapping and query without an exact match,
every suggested name is strictly longer than the trimmed query. -/
theorem lookupSingleItem_blank_query (counts : CountMap) (stdin : List Str) (hwf : WF counts)
    (hne : counts ≠ []) (hkeys : ∀ p ∈ counts, p.1 ≠ [])
    (hq : ∀ c ∈ (getline stdin).1, c = 32 ∨ c = 9 ∨ c = 13) :
    counts.find? (fun p => toLower p.1 == toLower (trim (getline stdin).1)) = none ∧
    suggestions counts (toLower (trim (getline stdin).1)) = counts.map Prod.fst ∧
    (counts.map Prod.fst).Pairwise (fun a b => strLt a b = true) ∧
    lookupSingleItem counts stdin
      = (ascii "Enter item name (e.g. Apples): "
          ++ (ascii "I couldn" ++ [0xE2, 0x80, 0x99] ++ ascii "t find \"" ++ []
            ++ ascii "\" exactly. Did you mean:\n"
            ++ ((counts.map Prod.fst).map (fun k => ascii "  - " ++ k ++ ascii "\n")).flatten),
        (getline stdin).2) ∧
    (∀ input, (lookupSingleItem counts stdin).1
      ≠ ascii "Enter item name (e.g. Apples): "
          ++ (ascii "No items match \"" ++ input ++ ascii "\".\n")) ∧
    (∀ k c, (lookupSingleItem counts stdin).1
      ≠ ascii "Enter item name (e.g. Apples): "
          ++ (ascii "Great news! '" ++ k ++ ascii "' was purchased " ++ decimal c
            ++ (if c = 1 then ascii " time.\n" else ascii " times.\n"))) ∧
    (∀ (counts1 : CountMap) (stdin1 : List Str),
      (∀ p ∈ counts1, toLower p.1 ≠ toLower (trim (getline stdin1).1)) →
      ∀ k ∈ suggestions counts1 (toLower (trim (getline stdin1).1)),
        (trim (getline stdin1).1).length < k.length) :=
  blank_query_output_text counts stdin hwf hne hkeys hq

set_option maxRecDepth 100000 in
/-- Witness for C20: a query of spaces and a tab against the mapping of the specification's
examples. -/
theorem lookupSingleItem_blank_query_witness :
    lookupSingleItem [(ascii "Apples", 3), (ascii "Apricots", 1), (ascii "Bananas", 2)]
        [ascii "  \t"]
      = (ascii "Enter item name (e.g. Apples): I couldn" ++ [0xE2, 0x80, 0x99]
          ++ ascii "t find \"\" exactly. Did you mean:\n  - Apples\n  - Apricots\n  - Bananas\n",
        []) :=
  ((lookupSingleItem_blank_query
    [(ascii "Apples", 3), (ascii "Apricots", 1), (ascii "Bananas", 2)] [ascii "  \t"]
    (by decide) (by decide) (by decide) (by decide)).2.2.2.1).trans (by decide)

end GroceryTracker
